import Mathlib

/-!
# Verification of the origin-to-adaptive converter (`origin-to-adaptive.js`)

Shallow embedding of the core converter of the `pnstoteams` repository:
the pure pipeline `origin document → pretty lines → adaptive-card envelope`,
plus the loose-text fallback parser living in `main`.

Modelling conventions:
* A JSON value (`JVal`) carries numbers as exact rationals.  JavaScript
  numbers are IEEE doubles; every number that actually flows through this
  code base (integer literals and short decimal literals) is represented
  exactly by a double, so the rational idealisation is faithful on the
  values the program manipulates.
* A JavaScript object is modelled as an association list in insertion
  order with pairwise-distinct keys (`Doc`); property iteration order is
  the list order.
* JavaScript strings are modelled as Lean `String`s; `length`/`slice`
  count characters (the sources only ever handle BMP text, where the two
  notions of length agree).
* `Number(...)` applied to an option string is modelled by `jsToNumber`,
  which implements the decimal-literal part of the JavaScript grammar
  (optional sign, digits, optional fraction, surrounding whitespace);
  exotic forms (hex, exponent, `Infinity`) are not modelled and map to
  `JSNum.nan`.  NaN must be tracked explicitly because `main` feeds
  `Number(args.indent || 5)` straight into the renderer.
* `String.prototype.repeat` called with a negative count throws a
  `RangeError`; no claim reaches that case, and `indentOf` is only
  applied at `nan` (which JavaScript coerces to count `0`) or at
  non-negative counts.
* The renderer's one throwing statement is the `item.paymentMethod`
  access in the `paymentTypeList` expansion: a `TypeError` on a `null`
  item, which aborts the whole conversion.  `originToPrettyLinesF`
  models the full behaviour (`none` for a throwing run); the total
  `originToPrettyLines` describes the completing runs and is connected
  to it by `coreF_eq_total` and `coreF_eq_none_iff`.
-/

namespace PnsToTeams

/-- A JSON-like JavaScript value, as handled by the converter. -/
inductive JVal where
  | null : JVal
  | bool (b : Bool) : JVal
  | num (q : ℚ) : JVal
  | str (s : String) : JVal
  | arr (items : List JVal) : JVal
  | obj (fields : List (String × JVal)) : JVal

/-- A JavaScript object in insertion order: what the converter calls `origin`. -/
abbrev Doc := List (String × JVal)

/-- JavaScript truthiness of a value (`if (v)`); arrays and objects are
always truthy, `null`/`false`/`0`/`""` are falsy. -/
def truthy : JVal → Bool
  | .null => false
  | .bool b => b
  | .num q => q ≠ 0
  | .str s => s ≠ ""
  | .arr _ => true
  | .obj _ => true

/-- The guard `typeof v === 'object' && v` — true exactly for (non-null) objects and
arrays, the guard used for the subscription sub-block. -/
def isObjLike : JVal → Bool
  | .obj _ => true
  | .arr _ => true
  | _ => false

/-- Models `Array.isArray`. -/
def isArr : JVal → Bool
  | .arr _ => true
  | _ => false

/-- Property lookup `origin[k]` on an object (association list). -/
def jget (d : Doc) (k : String) : Option JVal :=
  (d.find? (fun kv => kv.1 = k)).map Prod.snd

/-- Property lookup defaulting to `null`.  JavaScript yields `undefined`
for a missing property; everywhere this default is consumed
(`formatValue`) `undefined` and `null` render identically (`'null'`),
so the two are merged. -/
def jgetD (d : Doc) (k : String) : JVal :=
  (jget d k).getD .null

/-- Models `Object.prototype.hasOwnProperty.call(origin, key)`. -/
def hasKey (d : Doc) (k : String) : Bool :=
  d.any (fun kv => kv.1 = k)

/-- Property access `v[k]` as it behaves on the *non-throwing* item
values: non-null non-objects have no such property (`undefined`, merged
with `null` as in `jgetD`).  On `null` the real access
`item.paymentMethod` throws a `TypeError` — that case is modelled by
`jgetPropF` and the fallible renderer (`originToPrettyLinesCoreF`), and
the total renderer is related to the program only on runs the fallible
renderer completes. -/
def jgetProp (v : JVal) (k : String) : JVal :=
  match v with
  | .obj fs => ((fs.find? (fun kv => kv.1 = k)).map Prod.snd).getD .null
  | _ => .null

/-- Models `Object.keys(v)` paired with the values, for a `typeof === 'object'`
value: fields of an object in insertion order, or index/value pairs for
an array (JavaScript array indices enumerate first, in ascending order). -/
def jsObjectEntries : JVal → List (String × JVal)
  | .obj fs => fs
  | .arr xs => xs.enum.map (fun p => (toString p.1, p.2))
  | _ => []

/-- Property assignment `origin[k] = v`: overwrite in place if the key
exists (keeping its position), otherwise append. -/
def setKey (d : Doc) (k : String) (v : JVal) : Doc :=
  if d.any (fun kv => kv.1 = k) then
    d.map (fun kv => if kv.1 = k then (k, v) else kv)
  else
    d ++ [(k, v)]

/-! ## JavaScript numbers from option strings -/

/-- A JavaScript number as produced by `Number(...)`: either NaN or a
(finite) value. -/
inductive JSNum where
  | nan : JSNum
  | val (q : ℚ) : JSNum
  deriving DecidableEq, Repr

/-- The JavaScript regex class `\s` (whitespace, including NBSP). -/
def isJsSpace (c : Char) : Bool :=
  c = ' ' ∨ c = '\t' ∨ c = '\n' ∨ c = '\r' ∨ c = '\x0b' ∨ c = '\x0c' ∨
  c = '\u00A0' ∨ c = '\u1680' ∨ ('\u2000' ≤ c ∧ c ≤ '\u200A') ∨
  c = '\u2028' ∨ c = '\u2029' ∨ c = '\u202F' ∨ c = '\u205F' ∨
  c = '\u3000' ∨ c = '\uFEFF'

/-- Numeric value of a digit string (most significant first). -/
def digitsToNat (cs : List Char) : Nat :=
  cs.foldl (fun acc c => acc * 10 + (c.toNat - '0'.toNat)) 0

/-- Value of a fractional digit string `d₁d₂…dₙ` as `0.d₁d₂…dₙ`. -/
def fracVal (d : List Char) : ℚ :=
  (digitsToNat d : ℚ) / (10 : ℚ) ^ d.length

/-- Unsigned decimal literal: `digits [. digits*]` or `. digits+`
(`"5."` and `".5"` are both legal JavaScript number literals). -/
def parseDecCore (cs : List Char) : Option ℚ :=
  let d1 := cs.takeWhile Char.isDigit
  let r1 := cs.dropWhile Char.isDigit
  if d1.isEmpty then
    match r1 with
    | '.' :: d2 =>
        if d2.isEmpty = false ∧ d2.all Char.isDigit then some (fracVal d2) else none
    | _ => none
  else
    match r1 with
    | [] => some (digitsToNat d1 : ℚ)
    | '.' :: d2 => if d2.all Char.isDigit then some ((digitsToNat d1 : ℚ) + fracVal d2) else none
    | _ => none

/-- Models `Number(s)` for a string, restricted to the decimal-literal grammar
(see the module comment): trim, empty → `0`, optional sign, decimal
literal; anything else → NaN. -/
def jsToNumber (s : String) : JSNum :=
  let cs := ((s.data.dropWhile isJsSpace).reverse.dropWhile isJsSpace).reverse
  if cs.isEmpty then .val 0
  else
    match cs with
    | '-' :: r => match parseDecCore r with
                  | some q => .val (-q)
                  | none => .nan
    | '+' :: r => match parseDecCore r with
                  | some q => .val q
                  | none => .nan
    | _ => match parseDecCore cs with
           | some q => .val q
           | none => .nan

/-- Models `Number(args.x || dflt)` — the option-resolution idiom of `main`:
an absent option and an empty string are falsy and give the default,
anything else goes through `Number`. -/
def resolveNumOpt (dflt : ℚ) (o : Option String) : JSNum :=
  match o with
  | none => .val dflt
  | some s => if s = "" then .val dflt else jsToNumber s

/-- Models `args.x || dflt` for string-valued options. -/
def resolveStrOpt (dflt : String) (o : Option String) : String :=
  match o with
  | none => dflt
  | some s => if s = "" then dflt else s

/-- Models `ToIntegerOrInfinity` of a non-negative finite number, as a `Nat`
(used by `repeat` and `slice`; for positive arguments truncation and
floor agree). -/
def jnFloorNat (q : ℚ) : Nat := q.floor.toNat

/-- NaN-aware `+ 2` (for `indent(indentSize + 2)`). -/
def jnAdd2 : JSNum → JSNum
  | .nan => .nan
  | .val q => .val (q + 2)

/-! ## Rendering numbers back to text (`String(val)`)

JavaScript prints an integral double without decimal point and a short
decimal fraction with one; this renderer reproduces that on the exact
rationals that stand in for doubles (terminating decimal fractions). -/

/-- Digit string of a natural number left-padded with zeros to width `k`. -/
def padLeftZeros (s : String) (k : Nat) : String :=
  String.mk (List.replicate (k - s.length) '0') ++ s

/-- Drop trailing `'0'` characters. -/
def dropTrailingZeros (s : String) : String :=
  String.mk ((s.data.reverse.dropWhile (fun c => c = '0')).reverse)

/-- Smallest exponent `k ≤ 40` with `den ∣ 10^k`, if any. -/
def pow10Exp (den : Nat) : Option Nat :=
  (List.range 41).find? (fun k => den ∣ 10 ^ k)

/-- Models `String(val)` for a number value. -/
def jsNumToString (q : ℚ) : String :=
  if q.den = 1 then toString q.num
  else
    let a : ℚ := |q|
    let ip : Nat := jnFloorNat a
    let frac : ℚ := a - (ip : ℚ)
    match pow10Exp a.den with
    | some k =>
        let digits : Nat := jnFloorNat (frac * (10 : ℚ) ^ k)
        (if q < 0 then "-" else "") ++ toString ip ++ "." ++
          dropTrailingZeros (padLeftZeros (toString digits) k)
    | none => toString q.num ++ "/" ++ toString q.den

/-! ## formatValue / indent -/

/-- The NBSP character ` `. -/
def nbspChar : Char := '\u00A0'

/-- Models `NBSP.repeat(n)`. -/
def nbspStr (n : Nat) : String := String.mk (List.replicate n nbspChar)

/-- The string-truncation step of `formatValue`:
`if (truncateLen > 0 && s.length > truncateLen) s = s.slice(0, truncateLen) + '...'`.
All comparisons against NaN are false, so a NaN `truncateLen` never
truncates. -/
def truncateStr (tl : JSNum) (s : String) : String :=
  match tl with
  | .nan => s
  | .val q =>
      if 0 < q ∧ q < (s.length : ℚ) then String.mk (s.data.take (jnFloorNat q)) ++ "..." else s

/-- Models `formatValue(val, { truncateLen })`. -/
def formatValue (val : JVal) (tl : JSNum) : String :=
  match val with
  | .str s => "\"" ++ truncateStr tl s ++ "\""
  | .num q => jsNumToString q
  | .bool b => if b then "true" else "false"
  | .arr _ => "[Array]"
  | .obj _ => "\x7bObject\x7d"
  | .null => "null"

/-- Models `indent(nbspCount)` = `NBSP.repeat(nbspCount)`; a NaN count repeats
zero times. -/
def indentOf : JSNum → String
  | .nan => ""
  | .val q => nbspStr (jnFloorNat q)

/-! ## originToPrettyLines -/

/-- The fixed Policy A (subscription-variant) precedence list, verbatim
from the source — including the misspelled `environmenmt` entry. -/
def input2Order : List String :=
  ["msgVersion", "clientId", "eventTimeMillis", "subscriptionNotification",
   "environmenmt", "marketCode"]

/-- Sub-keys of the subscription block that get two extra NBSPs. -/
def deepSubKeys : List String :=
  ["version", "productId", "notificationType", "purchaseToken"]

/-- The fixed Policy B (generic-variant) precedence list. -/
def preferredOrder : List String :=
  ["msgVersion", "clientId", "productId", "messageType", "purchaseId",
   "developerPayload", "purchaseTimeMillis", "purchaseState",
   "price", "priceCurrencyCode", "productName",
   "paymentTypeList", "billingKey", "isTestMdn",
   "purchaseToken", "environment", "marketCode", "signature"]

/-- The nested-object expansion of the subscription-notification entry. -/
def subBlockLines (ind ind2 : String) (tl : JSNum) (key : String) (val : JVal) : List String :=
  (ind ++ "\"" ++ key ++ "\": \x7b") ::
  ((jsObjectEntries val).enum.map (fun p =>
      let subKey := p.2.1
      let subVal := formatValue p.2.2 tl
      let comma := if p.1 < (jsObjectEntries val).length - 1 then "," else ""
      if deepSubKeys.contains subKey then
        ind2 ++ nbspStr 1 ++ nbspStr 1 ++ "\"" ++ subKey ++ "\": " ++ subVal ++ comma
      else
        ind2 ++ "\"" ++ subKey ++ "\": " ++ subVal ++ comma)
   ++ [ind ++ "\x7d,"])

/-- One iteration of the Policy A loop body, for a candidate key of
`input2Order`: absent keys contribute nothing, the subscription key with
an object value expands, everything else is a scalar line whose comma is
dropped only for the *last list element* (`marketCode`). -/
def policyAEntry (ind ind2 : String) (tl : JSNum) (origin : Doc) (key : String) : List String :=
  if hasKey origin key then
    let val := jgetD origin key
    if key = "subscriptionNotification" ∧ isObjLike val then
      subBlockLines ind ind2 tl key val
    else
      [ind ++ "\"" ++ key ++ "\": " ++ formatValue val tl ++
        (if key = input2Order.getLastD "" then "" else ",")]
  else []

/-- The items of an array value (`[]` for non-arrays; only ever applied
after an `Array.isArray` guard). -/
def arrItems : JVal → List JVal
  | .arr xs => xs
  | _ => []

/-- Keys of a document in iteration order. -/
def keysOf (origin : Doc) : List String := origin.map Prod.fst

/-- The Policy B ordered key sequence: precedence-list keys that are
present, in list order, then the remaining keys in input order. -/
def orderedB (origin : Doc) : List String :=
  preferredOrder.filter (fun k => (keysOf origin).contains k) ++
  (keysOf origin).filter (fun k => !(preferredOrder.contains k))

/-- One item line of the `paymentTypeList` expansion. -/
def paymentItemLine (ind2 : String) (tl : JSNum) (len : Nat) (p : Nat × JVal) : String :=
  let pm := formatValue (jgetProp p.2 "paymentMethod") tl
  let amt := formatValue (jgetProp p.2 "amount") tl
  let comma := if p.1 < len - 1 then "," else ""
  ind2 ++ nbspStr 1 ++ nbspStr 1 ++ "\x7b \"paymentMethod\": " ++ pm ++ ", \"amount\": " ++ amt ++ " \x7d" ++ comma

/-- One iteration of the Policy B loop body: the designated
`paymentTypeList` array expands (its closing line always carries a
comma), every other entry is a scalar line whose comma is dropped only
for the last key of the ordered sequence. -/
def policyBEntry (ind ind2 : String) (tl : JSNum) (origin : Doc) (lastKey : String)
    (key : String) : List String :=
  let val := jgetD origin key
  if key = "paymentTypeList" ∧ isArr val then
    (ind ++ "\"" ++ key ++ "\": [") ::
    ((arrItems val).enum.map (paymentItemLine ind2 tl (arrItems val).length)
     ++ [ind ++ "],"])
  else
    [ind ++ "\"" ++ key ++ "\": " ++ formatValue val tl ++
      (if key = lastKey then "" else ",")]

/-- Whether the Policy A branch is taken: `if (origin.subscriptionNotification)`. -/
def subTruthy (origin : Doc) : Bool :=
  match jget origin "subscriptionNotification" with
  | some v => truthy v
  | none => false

/-- Models `originToPrettyLines`, with the two indentation strings already
computed (the source computes `ind`/`ind2` once at the top). -/
def originToPrettyLinesCore (origin : Doc) (ind ind2 : String) (tl : JSNum) : List String :=
  "\x7b" ::
  ((if subTruthy origin then
      input2Order.flatMap (policyAEntry ind ind2 tl origin)
    else
      (orderedB origin).flatMap
        (policyBEntry ind ind2 tl origin ((orderedB origin).getLastD "")))
   ++ ["\x7d"])

/-- Models `originToPrettyLines(origin, { indentSize, truncateLen })`. -/
def originToPrettyLines (origin : Doc) (indentSize truncateLen : JSNum) : List String :=
  originToPrettyLinesCore origin (indentOf indentSize) (indentOf (jnAdd2 indentSize)) truncateLen

/-! ## The fallible renderer (the TypeError path)

`item.paymentMethod` — the first property access in the
`paymentTypeList` item expansion — is the one statement of the renderer
that can throw: JavaScript raises a `TypeError` when `item` is `null`
(JSON has no `undefined`, so `null` is the only crashing item value),
the exception escapes `main`, and the process renders nothing.  The
total functions above describe the completing runs; the `F`-suffixed
functions below embed the full behaviour, with `none` for a throwing
run, and the bridge lemmas `coreF_eq_total` / `coreF_eq_none_iff`
relate the two. -/

/-- Whether a value is the JSON `null`. -/
def isNull : JVal → Bool
  | .null => true
  | _ => false

/-- Models `item.paymentMethod` / `item.amount` exactly: property
access on `null` throws a `TypeError` (`none`); on any other value the
result is the property, with a missing property's `undefined` merged to
`null` as in `jgetD`. -/
def jgetPropF (v : JVal) (k : String) : Option JVal :=
  match v with
  | .null => none
  | .obj fs => some (((fs.find? (fun kv => kv.1 = k)).map Prod.snd).getD .null)
  | _ => some .null

/-- One item line of the `paymentTypeList` expansion, with the two
property accesses performed in source order and a `TypeError` modelled
as `none`. -/
def paymentItemLineF (ind2 : String) (tl : JSNum) (len : Nat) (p : Nat × JVal) : Option String :=
  match jgetPropF p.2 "paymentMethod" with
  | none => none
  | some pmv =>
      match jgetPropF p.2 "amount" with
      | none => none
      | some amtv =>
          some (ind2 ++ nbspStr 1 ++ nbspStr 1 ++ "\x7b \"paymentMethod\": " ++ formatValue pmv tl
            ++ ", \"amount\": " ++ formatValue amtv tl ++ " \x7d"
            ++ (if p.1 < len - 1 then "," else ""))

/-- Sequential effectful map over a list, stopping at the first failure
— the shape of a `forEach` whose body can throw. -/
def optionMapList {α β : Type} (f : α → Option β) : List α → Option (List β)
  | [] => some []
  | a :: t =>
      match f a with
      | none => none
      | some b =>
          match optionMapList f t with
          | none => none
          | some bs => some (b :: bs)

/-- `policyBEntry` with the throwing item access explicit. -/
def policyBEntryF (ind ind2 : String) (tl : JSNum) (origin : Doc) (lastKey : String)
    (key : String) : Option (List String) :=
  let val := jgetD origin key
  if key = "paymentTypeList" ∧ isArr val then
    match optionMapList (paymentItemLineF ind2 tl (arrItems val).length) (arrItems val).enum with
    | none => none
    | some items => some ((ind ++ "\"" ++ key ++ "\": [") :: (items ++ [ind ++ "],"]))
  else
    some [ind ++ "\"" ++ key ++ "\": " ++ formatValue val tl ++
      (if key = lastKey then "" else ",")]

/-- `originToPrettyLinesCore` as the process actually behaves: `none`
when the source throws.  Policy A performs no item access and never
throws. -/
def originToPrettyLinesCoreF (origin : Doc) (ind ind2 : String) (tl : JSNum) :
    Option (List String) :=
  if subTruthy origin then
    some ("\x7b" :: (input2Order.flatMap (policyAEntry ind ind2 tl origin) ++ ["\x7d"]))
  else
    match optionMapList (policyBEntryF ind ind2 tl origin ((orderedB origin).getLastD ""))
        (orderedB origin) with
    | none => none
    | some blocks => some ("\x7b" :: (blocks.flatten ++ ["\x7d"]))

/-- `originToPrettyLines` with the throwing path explicit. -/
def originToPrettyLinesF (origin : Doc) (indentSize truncateLen : JSNum) : Option (List String) :=
  originToPrettyLinesCoreF origin (indentOf indentSize) (indentOf (jnAdd2 indentSize)) truncateLen

/-! ## Card assembler -/

/-- One `TextRun` inline: its text and whether it carries
`weight: 'bolder'` (only the title run does). -/
structure TextRun where
  text : String
  bolder : Bool
  deriving DecidableEq, Repr

/-- The options record assembled by `main` and threaded to
`buildAdaptiveMessage`. -/
structure RenderOpts where
  indentSize : JSNum
  truncateLen : JSNum
  title : String
  version : String
  useMonospace : Bool
  mode : String
  deriving DecidableEq, Repr

/-- Models `linesToAdaptiveBody(lines, { title, version, useMonospace, mode })`:
one `RichTextBlock` whose inlines are the bolder title run
`"<title> (<timestamp>)"` followed by one `\n`-prefixed run per line.
The wall clock read (`getKSTTimeString`) is the only effect of the
pipeline and is supplied as the pre-formatted string `nowStr`.
`version`, `useMonospace` and `mode` are accepted (as in the source
signature) but never used. -/
def linesToAdaptiveBody (lines : List String) (title version : String)
    (useMonospace : Bool) (mode : String) (nowStr : String) : List (List TextRun) :=
  [⟨title ++ " (" ++ nowStr ++ ")", true⟩ ::
    lines.map (fun line => ⟨"\n" ++ line, false⟩)]

/-- The adaptive-card `content` object. -/
structure AdaptiveContent where
  schema : String
  type : String
  version : String
  msteamsWidth : String
  body : List (List TextRun)
  deriving DecidableEq, Repr

/-- One attachment of the envelope. -/
structure Attachment where
  contentType : String
  contentUrl : Option String
  content : AdaptiveContent
  deriving DecidableEq, Repr

/-- The outer message envelope. -/
structure AdaptiveMessage where
  type : String
  attachments : List Attachment
  deriving DecidableEq, Repr

/-- Models `buildAdaptiveMessage(origin, opts)`, with the clock reading passed
in as `nowStr` (see `linesToAdaptiveBody`). -/
def buildAdaptiveMessage (origin : Doc) (o : RenderOpts) (nowStr : String) : AdaptiveMessage :=
  let lines := originToPrettyLines origin o.indentSize o.truncateLen
  let body := linesToAdaptiveBody lines o.title o.version o.useMonospace o.mode nowStr
  { type := "message"
    attachments := [{ contentType := "application/vnd.microsoft.card.adaptive"
                      contentUrl := none
                      content := { schema := "http://adaptivecards.io/schemas/adaptive-card.json"
                                   type := "AdaptiveCard"
                                   version := o.version
                                   msteamsWidth := "Full"
                                   body := body } }] }

/-! ## Loose-text fallback parser (the non-JSON branch of `main`)

The line-matching regex is
`/^\s*"?([\w.-]+)"?\s*:\s*(.+?)\s*$/`.  Its backtracking is
deterministic here: a quote after whitespace must be consumed (the key
class contains no quote), the greedy key run cannot profitably be
shortened (the character after a maximal run is not a word character,
and no alternative continuation accepts a word character), and the lazy
`(.+?)\s*$` yields the remainder with trailing whitespace stripped —
except when the remainder is entirely whitespace and non-empty, in which
case it yields exactly the last character.  `matchKV` implements that
normal form directly. -/

/-- The regex class `[\w.-]`. -/
def isWordChar (c : Char) : Bool :=
  c.isAlphanum ∨ c = '_' ∨ c = '.' ∨ c = '-'

/-- Match one line against `/^\s*"?([\w.-]+)"?\s*:\s*(.+?)\s*$/`,
returning the two capture groups. -/
def matchKV (line : String) : Option (String × String) :=
  let s1 := line.data.dropWhile isJsSpace
  let s2 := match s1 with
            | '"' :: r => r
            | other => other
  let key := s2.takeWhile isWordChar
  let s3 := s2.dropWhile isWordChar
  if key.isEmpty then none
  else
    let s4 := match s3 with
              | '"' :: r => r
              | other => other
    match s4.dropWhile isJsSpace with
    | ':' :: rem =>
        let remG := rem.dropWhile isJsSpace
        if remG.isEmpty then
          if rem.isEmpty then none
          else some (⟨key⟩, ⟨[rem.getLastD ' ']⟩)
        else
          some (⟨key⟩, ⟨(remG.reverse.dropWhile isJsSpace).reverse⟩)
    | _ => none

/-- Models `v.replace(/,$/, '')`. -/
def stripTrailingComma (v : String) : String :=
  match v.data.getLast? with
  | some ',' => ⟨v.data.dropLast⟩
  | _ => v

/-- Models `v.replace(/^"|"$/g, '')`: drop one leading and one trailing quote
(each independently, if present; on the one-character string `"` only
the `^"` alternative fires). -/
def stripQuotes (s : String) : String :=
  let a := match s.data with
           | '"' :: r => r
           | other => other
  let b := match a.getLast? with
           | some '"' => a.dropLast
           | _ => a
  ⟨b⟩

/-- Models `String.prototype.toLowerCase`, restricted to the ASCII range (the
parser only ever compares the result against `"true"`/`"false"`, where
full-Unicode lowering and ASCII lowering agree). -/
def jsToLower (s : String) : String := ⟨s.data.map Char.toLower⟩

/-- The regex `/^\d+(\.\d+)?$/` used for number coercion. -/
def isLooseNumLit (cs : List Char) : Bool :=
  let d1 := cs.takeWhile Char.isDigit
  let r := cs.dropWhile Char.isDigit
  !d1.isEmpty &&
    (match r with
     | [] => true
     | '.' :: d2 => !d2.isEmpty && d2.all Char.isDigit
     | _ => false)

/-- Exact value of a matched `/^\d+(\.\d+)?$/` literal. -/
def looseNumVal (cs : List Char) : ℚ :=
  let d1 := cs.takeWhile Char.isDigit
  match cs.dropWhile Char.isDigit with
  | '.' :: d2 => (digitsToNat d1 : ℚ) + fracVal d2
  | _ => (digitsToNat d1 : ℚ)

/-- Value coercion of a matched line's value group: strip one trailing
comma, then boolean (case-insensitive `true`/`false`), else number,
else string with one layer of quotes stripped. -/
def coerceValue (v : String) : JVal :=
  let v1 := stripTrailingComma v
  if jsToLower v1 = "true" ∨ jsToLower v1 = "false" then .bool (jsToLower v1 = "true")
  else if isLooseNumLit v1.data then .num (looseNumVal v1.data)
  else .str (stripQuotes v1)

/-- Models `(origin['raw'] || []).concat(line)`: a falsy or absent current value
restarts from `[]`; an array appends; a (truthy) string concatenates
(`String.prototype.concat`); a truthy number/boolean/object has no
`concat` method — JavaScript throws a `TypeError`, modelled as `none`. -/
def rawNext (cur : Option JVal) (line : String) : Option JVal :=
  match cur with
  | none => some (.arr [.str line])
  | some v =>
      if truthy v then
        match v with
        | .arr xs => some (.arr (xs ++ [.str line]))
        | .str s => some (.str (s ++ line))
        | _ => none
      else some (.arr [.str line])

/-- One loop iteration of the fallback branch over a (non-blank) line. -/
def looseStep (st : Option Doc) (line : String) : Option Doc :=
  match st with
  | none => none
  | some d =>
      match matchKV line with
      | some kv => some (setKey d kv.1 (coerceValue kv.2))
      | none =>
          match rawNext (jget d "raw") line with
          | some newRaw => some (setKey d "raw" newRaw)
          | none => none

/-- Models `raw.split(/\r?\n/)` on the character list. -/
def splitLinesAux : List Char → List Char → List (List Char)
  | [], acc => [acc.reverse]
  | '\r' :: '\n' :: rest, acc => acc.reverse :: splitLinesAux rest []
  | '\n' :: rest, acc => acc.reverse :: splitLinesAux rest []
  | c :: rest, acc => splitLinesAux rest (c :: acc)

/-- The non-blank lines of the raw input:
`raw.split(/\r?\n/).filter(l => l.trim().length > 0)`. -/
def nonBlankLines (raw : String) : List String :=
  ((splitLinesAux raw.data []).map (fun cs => (⟨cs⟩ : String))).filter
    (fun l => (l.data.all isJsSpace) = false)

/-- The whole fallback branch of `main`: fold the lines into an object,
`none` when JavaScript would throw (see `rawNext`). -/
def parseLoose (raw : String) : Option Doc :=
  (nonBlankLines raw).foldl looseStep (some [])

/-! ## Observers (verification-side views of the rendered lines) -/

/-- Boolean string-prefix test (on the underlying character lists). -/
def strIsPrefix (p s : String) : Bool := p.data.isPrefixOf s.data

/-- If a rendered line opens a top-level entry at indentation width `n`
(`<n NBSPs>"<key>": …`), recover the key: such a line starts with the
`n` NBSPs and a quote, and the key runs to the next quote.  Lines that
open no entry (braces, deeper-indented expansion lines, closing
brackets) yield `none`. -/
def extractKey (n : Nat) (l : String) : Option String :=
  if strIsPrefix (nbspStr n ++ "\"") l then
    some ⟨(l.data.drop (n + 1)).takeWhile (fun c => c ≠ '"')⟩
  else none

/-- The keys of the top-level entries of a rendered line list, in render
order. -/
def renderedKeys (n : Nat) (lines : List String) : List String :=
  lines.filterMap (extractKey n)
end PnsToTeams

/-! # Theorems -/

namespace PnsToTeams

/-! ## Basic lemmas about the document model -/

theorem hasKey_iff_mem (d : Doc) (k : String) : hasKey d k = true ↔ k ∈ keysOf d := by
  simp [hasKey, keysOf, List.any_eq_true]

theorem jget_eq_some_of_mem {d : Doc} {k : String} (h : k ∈ keysOf d) :
    ∃ v, jget d k = some v := by
  induction d with
  | nil => simp [keysOf] at h
  | cons kv rest ih =>
      by_cases hk : kv.1 = k
      · exact ⟨kv.2, by simp [jget, List.find?, hk]⟩
      · have : k ∈ keysOf rest := by
          simp [keysOf] at h ⊢
          rcases h with h | h
          · exact absurd h.symm hk
          · exact h
        rcases ih this with ⟨v, hv⟩
        refine ⟨v, ?_⟩
        simpa [jget, List.find?, hk] using hv

theorem mem_of_jget_eq_some {d : Doc} {k : String} {v : JVal} (h : jget d k = some v) :
    k ∈ keysOf d := by
  induction d with
  | nil => simp [jget] at h
  | cons kv rest ih =>
      by_cases hk : kv.1 = k
      · simp [keysOf, hk.symm]
      · simp only [jget, List.find?, hk] at h
        simp only [decide_eq_true_eq] at *
        have : k ∈ keysOf rest := ih (by simpa [jget, List.find?, hk] using h)
        simp [keysOf] at this ⊢
        exact Or.inr this

theorem hasKey_eq_isSome (d : Doc) (k : String) : hasKey d k = (jget d k).isSome := by
  by_cases h : hasKey d k = true
  · rcases jget_eq_some_of_mem ((hasKey_iff_mem d k).1 h) with ⟨v, hv⟩
    simp [h, hv]
  · have h' : k ∉ keysOf d := fun hm => h ((hasKey_iff_mem d k).2 hm)
    have : jget d k = none := by
      cases hj : jget d k with
      | none => rfl
      | some v => exact absurd (mem_of_jget_eq_some hj) h'
    simp [this, Bool.eq_false_iff.2 h]

theorem jgetD_eq_of_jget {d : Doc} {k : String} {v : JVal} (h : jget d k = some v) :
    jgetD d k = v := by
  simp [jgetD, h]

theorem hasKey_of_jget {d : Doc} {k : String} {v : JVal} (h : jget d k = some v) :
    hasKey d k = true := by
  rw [hasKey_eq_isSome, h]
  rfl

theorem subTruthy_eq_truthy {origin : Doc} {v : JVal}
    (h : jget origin "subscriptionNotification" = some v) :
    subTruthy origin = truthy v := by
  simp [subTruthy, h]

theorem subTruthy_false_of_not_hasKey {origin : Doc}
    (h : hasKey origin "subscriptionNotification" = false) :
    subTruthy origin = false := by
  have : jget origin "subscriptionNotification" = none := by
    cases hj : jget origin "subscriptionNotification" with
    | none => rfl
    | some v => rw [hasKey_of_jget hj] at h; exact absurd h (by simp)
  simp [subTruthy, this]

/-! ## Numeric bridge lemmas

ℚ arithmetic (`Rat.add`) normalises through `Nat.gcd`, which the kernel
cannot reduce; these lemmas replace the indent arithmetic by `Nat`
arithmetic so that concrete renderings can be settled by `decide`. -/

theorem ratFloor_eq_intFloor (q : ℚ) : q.floor = ⌊q⌋ := by
  rw [Rat.floor_def', Rat.floor_def]

theorem jnFloorNat_natCast (n : ℕ) : jnFloorNat ((n : ℚ)) = n := by
  unfold jnFloorNat
  rw [ratFloor_eq_intFloor, Int.floor_natCast, Int.toNat_natCast]

theorem indentOf_val_natCast (n : ℕ) : indentOf (.val (n : ℚ)) = nbspStr n := by
  simp [indentOf, jnFloorNat_natCast]

theorem jnAdd2_val_natCast (n : ℕ) : jnAdd2 (.val (n : ℚ)) = .val (((n + 2 : ℕ) : ℚ)) := by
  simp [jnAdd2]

theorem originToPrettyLines_val_nat (origin : Doc) (n : ℕ) (tl : JSNum) :
    originToPrettyLines origin (.val (n : ℚ)) tl =
      originToPrettyLinesCore origin (nbspStr n) (nbspStr (n + 2)) tl := by
  unfold originToPrettyLines
  rw [jnAdd2_val_natCast, indentOf_val_natCast, indentOf_val_natCast]

theorem val5_as_natCast : JSNum.val (5 : ℚ) = JSNum.val ((5 : ℕ) : ℚ) := by norm_num

/-! ## C8 — Scenario 1 -/

/-- C8: on input `{"msgVersion":"1.0","clientId":"abc"}` with the default
options (`Number(args.indent || 5)` with the option absent, likewise for
truncation), the renderer yields exactly the four documented lines: the
opening brace, the `msgVersion` line (five NBSPs, trailing comma), the
`clientId` line (five NBSPs, no trailing comma), and the closing brace. -/
theorem scenario1_default_render :
    originToPrettyLines [("msgVersion", JVal.str "1.0"), ("clientId", JVal.str "abc")]
        (resolveNumOpt 5 none) (resolveNumOpt 0 none)
      = ["\x7b",
         "     \"msgVersion\": \"1.0\",",
         "     \"clientId\": \"abc\"",
         "\x7d"] := by
  rw [show resolveNumOpt 5 none = JSNum.val ((5 : ℕ) : ℚ) from by simp [resolveNumOpt],
      originToPrettyLines_val_nat]
  decide

/-! ## C2 — the `environment` key is dropped under Policy A -/

/-- C2 (failing input): for the Policy A document
`{"subscriptionNotification":{"version":"1"},"environment":"prod"}` the
rendered output contains **no** line for `environment`: the Policy A
precedence array of the source spells the entry `environmenmt`, so the
documented key `environment` never passes the `hasOwnProperty` filter.
The second conjunct records that the only top-level entry rendered is
`subscriptionNotification`. -/
theorem policyA_environment_dropped :
    originToPrettyLines
        [("subscriptionNotification", JVal.obj [("version", JVal.str "1")]),
         ("environment", JVal.str "prod")] (JSNum.val 5) (JSNum.val 0)
      = ["\x7b",
         "     \"subscriptionNotification\": \x7b",
         "         \"version\": \"1\"",
         "     \x7d,",
         "\x7d"]
    ∧ renderedKeys 5
        (originToPrettyLines
          [("subscriptionNotification", JVal.obj [("version", JVal.str "1")]),
           ("environment", JVal.str "prod")] (JSNum.val 5) (JSNum.val 0))
      = ["subscriptionNotification"] := by
  rw [val5_as_natCast, originToPrettyLines_val_nat]
  constructor
  · decide
  · decide

/-! ## C9 — layoutMode and useMonospace are dead options -/

/-- C9: with the document, the numeric options, the title, the version
and the clock reading all fixed, the produced envelope does not depend
on `mode` (`'textblock'` vs `'single'`) or on `useMonospace`: neither
parameter is consulted anywhere in `linesToAdaptiveBody` or
`buildAdaptiveMessage`. -/
theorem layout_options_no_op (origin : Doc) (o₁ o₂ : RenderOpts) (nowStr : String)
    (hi : o₁.indentSize = o₂.indentSize) (ht : o₁.truncateLen = o₂.truncateLen)
    (htl : o₁.title = o₂.title) (hv : o₁.version = o₂.version) :
    buildAdaptiveMessage origin o₁ nowStr = buildAdaptiveMessage origin o₂ nowStr := by
  cases o₁
  cases o₂
  simp only at hi ht htl hv
  subst hi ht htl hv
  rfl

theorem layout_options_no_op_witness :
    buildAdaptiveMessage [("a", JVal.str "b")]
        ⟨JSNum.val 5, JSNum.val 0, "PNS", "1.5", true, "textblock"⟩ "2026-10-11 00:00:00"
      = buildAdaptiveMessage [("a", JVal.str "b")]
        ⟨JSNum.val 5, JSNum.val 0, "PNS", "1.5", false, "single"⟩ "2026-10-11 00:00:00" :=
  layout_options_no_op _ _ _ _ rfl rfl rfl rfl

/-! ## C6 — truncation is not idempotent for slightly larger limits -/

/-- C6 (counterexample): truncating `"abc"` at limit 1 gives `"a..."`;
re-truncating that at the larger limit 2 gives `"a...."`, not `"a..."`:
the ellipsis marker itself gets cut and a second marker appended. -/
theorem truncate_idempotent_cex :
    truncateStr (JSNum.val 2) (truncateStr (JSNum.val 1) "abc")
      ≠ truncateStr (JSNum.val 1) "abc" := by
  decide

/-! ## C1 — a non-numeric indent option does not fail closed -/

/-- C1 (counterexample): with `--indent abc` the option pipeline
computes `Number("abc") = NaN`, and `NBSP.repeat(NaN)` repeats zero
times, so the rendered lines carry no indentation at all — they differ
from the default-indent (five NBSPs) rendering. -/
theorem indent_nan_cex :
    originToPrettyLines [("a", JVal.str "b")] (resolveNumOpt 5 (some "abc")) (resolveNumOpt 0 none)
      ≠ originToPrettyLines [("a", JVal.str "b")] (resolveNumOpt 5 none) (resolveNumOpt 0 none) := by
  rw [show resolveNumOpt 5 none = JSNum.val ((5 : ℕ) : ℚ) from by simp [resolveNumOpt],
      originToPrettyLines_val_nat]
  decide

/-! ## C3 — the comma rule under Policy A ignores which entry is last -/

/-- C3 (counterexample): for the Policy A document
`{"subscriptionNotification":"x"}` the one and only (hence last) rendered
entry line still ends with a comma, because the source omits the comma
only for the key `marketCode`, the last element of the precedence
*list*, not the last entry actually present. -/
theorem comma_last_entry_cex :
    originToPrettyLines [("subscriptionNotification", JVal.str "x")] (JSNum.val 5) (JSNum.val 0)
      = ["\x7b", "     \"subscriptionNotification\": \"x\",", "\x7d"]
    ∧ "     \"subscriptionNotification\": \"x\",".data.getLast? = some ',' := by
  rw [val5_as_natCast, originToPrettyLines_val_nat]
  constructor
  · decide
  · decide

/-! ## C4 — Policy A drops keys, so the line-count formula fails -/

/-- C4 (counterexample): the document
`{"subscriptionNotification":"yes","extra":1}` has two top-level keys and
no array expansion, so the claimed count is `2 + 2 = 4`; but Policy A
silently drops `extra` (it is not in the precedence list) and renders
only three lines. -/
theorem line_count_cex :
    (originToPrettyLines [("subscriptionNotification", JVal.str "yes"), ("extra", JVal.num 1)]
        (JSNum.val 5) (JSNum.val 0)).length
      ≠ ([("subscriptionNotification", JVal.str "yes"), ("extra", JVal.num 1)] : Doc).length + 2 := by
  rw [val5_as_natCast, originToPrettyLines_val_nat]
  decide

/-! ## C7 — the loose parser, and the non-reserved `raw` key -/

/-- C7 (counterexample): when a *matching* line binds the key `raw`
itself (`raw: x`), a later non-matching line is not appended to a
sequence: `(origin['raw'] || []).concat(line)` hits the string value
`"x"`, and `String.prototype.concat` produces the plain string `"xbad"`,
so the reserved-sequence description fails on this input. -/
theorem loose_raw_cex :
    parseLoose "raw: x\nbad" = some [("raw", JVal.str "xbad")]
    ∧ isArr (jgetD [("raw", JVal.str "xbad")] "raw") = false := by
  exact ⟨rfl, rfl⟩

/-! ## C1 (amended) — truncation fails closed, indentation does not -/

theorem formatValue_nan_eq_val0 (v : JVal) :
    formatValue v JSNum.nan = formatValue v (JSNum.val 0) := by
  cases v <;> simp [formatValue, truncateStr]

theorem policyAEntry_congr_tl (ind ind2 : String) {tl tl' : JSNum} (origin : Doc) (k : String)
    (h : ∀ v, formatValue v tl = formatValue v tl') :
    policyAEntry ind ind2 tl origin k = policyAEntry ind ind2 tl' origin k := by
  simp only [policyAEntry, subBlockLines, h]

theorem policyBEntry_congr_tl (ind ind2 : String) {tl tl' : JSNum} (origin : Doc)
    (lastKey k : String) (h : ∀ v, formatValue v tl = formatValue v tl') :
    policyBEntry ind ind2 tl origin lastKey k = policyBEntry ind ind2 tl' origin lastKey k := by
  have hp : ∀ len, paymentItemLine ind2 tl len = paymentItemLine ind2 tl' len := by
    intro len
    funext p
    simp only [paymentItemLine, h]
  simp only [policyBEntry, h, hp]

theorem core_congr_tl (origin : Doc) (ind ind2 : String) {tl tl' : JSNum}
    (h : ∀ v, formatValue v tl = formatValue v tl') :
    originToPrettyLinesCore origin ind ind2 tl = originToPrettyLinesCore origin ind ind2 tl' := by
  unfold originToPrettyLinesCore
  rw [show policyAEntry ind ind2 tl origin = policyAEntry ind ind2 tl' origin from
        funext fun k => policyAEntry_congr_tl ind ind2 origin k h,
      show policyBEntry ind ind2 tl origin ((orderedB origin).getLastD "") =
          policyBEntry ind ind2 tl' origin ((orderedB origin).getLastD "") from
        funext fun k => policyBEntry_congr_tl ind ind2 origin _ k h]

/-- C1 (amended): a non-numeric option string resolves to NaN.  For the
truncation option every NaN comparison is false, exactly as for the
default `0`, so the rendered lines — and the whole envelope — coincide
with the default rendering.  For the indent option, however,
`NBSP.repeat(NaN)` repeats zero times, so both indentation strings are
empty: the output is *not* the default (five-NBSP) rendering (see
`indent_nan_cex`), but the zero-indent rendering stated here. -/
theorem invalid_numeric_options_amended :
    (∀ (origin : Doc) (ind : JSNum) (s : String), s ≠ "" → jsToNumber s = JSNum.nan →
        originToPrettyLines origin ind (resolveNumOpt 0 (some s)) =
          originToPrettyLines origin ind (resolveNumOpt 0 none))
    ∧ (∀ (origin : Doc) (o : RenderOpts) (s : String) (nowStr : String),
        s ≠ "" → jsToNumber s = JSNum.nan →
        buildAdaptiveMessage origin { o with truncateLen := resolveNumOpt 0 (some s) } nowStr =
          buildAdaptiveMessage origin { o with truncateLen := resolveNumOpt 0 none } nowStr)
    ∧ (∀ (origin : Doc) (tl : JSNum) (s : String), s ≠ "" → jsToNumber s = JSNum.nan →
        originToPrettyLines origin (resolveNumOpt 5 (some s)) tl =
          originToPrettyLinesCore origin "" "" tl) := by
  have hres : ∀ (q : ℚ) (s : String), s ≠ "" → jsToNumber s = JSNum.nan →
      resolveNumOpt q (some s) = JSNum.nan := by
    intro q s hs hn
    simp [resolveNumOpt, hs, hn]
  have hlines : ∀ (origin : Doc) (ind : JSNum) (s : String), s ≠ "" → jsToNumber s = JSNum.nan →
      originToPrettyLines origin ind (resolveNumOpt 0 (some s)) =
        originToPrettyLines origin ind (resolveNumOpt 0 none) := by
    intro origin ind s hs hn
    rw [hres 0 s hs hn, show resolveNumOpt 0 none = JSNum.val 0 from rfl]
    exact core_congr_tl _ _ _ formatValue_nan_eq_val0
  refine ⟨hlines, ?_, ?_⟩
  · intro origin o s nowStr hs hn
    unfold buildAdaptiveMessage
    simp only
    rw [show originToPrettyLines origin o.indentSize (resolveNumOpt 0 (some s)) =
          originToPrettyLines origin o.indentSize (resolveNumOpt 0 none) from
        hlines origin o.indentSize s hs hn]
  · intro origin tl s hs hn
    rw [hres 5 s hs hn]
    rfl

theorem invalid_numeric_options_amended_witness :
    originToPrettyLines [("a", JVal.str "b")] (JSNum.val 5) (resolveNumOpt 0 (some "abc")) =
      originToPrettyLines [("a", JVal.str "b")] (JSNum.val 5) (resolveNumOpt 0 none) :=
  invalid_numeric_options_amended.1 [("a", JVal.str "b")] (JSNum.val 5) "abc"
    (by decide) (by decide)

/-! ## C6 (amended) — truncation idempotence for L and for limits ≥ L + 3 -/

/-- C6 (amended): re-truncating with the *same* limit `L`, or with any
limit at least `L + 3` (so that the `L + 3`-character truncated result
is not cut again), is the identity; limits `L + 1` and `L + 2` are
excluded (see `truncate_idempotent_cex`). -/
theorem truncate_idempotent_amended (s : String) (L Lp : ℕ) (hL : 0 < L)
    (h : Lp = L ∨ L + 3 ≤ Lp) :
    truncateStr (JSNum.val (Lp : ℚ)) (truncateStr (JSNum.val (L : ℚ)) s)
      = truncateStr (JSNum.val (L : ℚ)) s := by
  have hLL' : L ≤ Lp := by rcases h with h | h <;> omega
  by_cases hc : 0 < (L : ℚ) ∧ (L : ℚ) < (s.length : ℚ)
  · have hLs : L < s.length := by exact_mod_cast hc.2
    have ht : truncateStr (JSNum.val (L : ℚ)) s = String.mk (s.data.take L) ++ "..." := by
      simp only [truncateStr, if_pos hc, jnFloorNat_natCast]
    rw [ht]
    have htake : (s.data.take L).length = L := by
      rw [List.length_take]
      have : s.length = s.data.length := rfl
      omega
    have hlen : (String.mk (s.data.take L) ++ "...").length = L + 3 := by
      rw [String.length_append]
      show (s.data.take L).length + 3 = L + 3
      omega
    rcases h with heq | h
    · rw [heq]
      have hc2 : 0 < (L : ℚ) ∧ (L : ℚ) < ((String.mk (s.data.take L) ++ "...").length : ℚ) := by
        refine ⟨hc.1, ?_⟩
        rw [hlen]
        push_cast
        linarith
      simp only [truncateStr, if_pos hc2, jnFloorNat_natCast]
      congr 1
      show String.mk (((String.mk (s.data.take L) ++ "...").data).take L) = String.mk (s.data.take L)
      congr 1
      rw [String.data_append]
      show ((s.data.take L) ++ "...".data).take L = s.data.take L
      calc ((s.data.take L) ++ "...".data).take L
          = ((s.data.take L) ++ "...".data).take (s.data.take L).length := by rw [htake]
        _ = s.data.take L := List.take_left _ _
    · have hc2 : ¬ (0 < (Lp : ℚ) ∧ (Lp : ℚ) < ((String.mk (s.data.take L) ++ "...").length : ℚ)) := by
        rw [hlen]
        intro hcon
        have h1 : ((L : ℚ) + 3) ≤ (Lp : ℚ) := by exact_mod_cast h
        have h2 : (Lp : ℚ) < ((L + 3 : ℕ) : ℚ) := hcon.2
        push_cast at h2
        linarith
      simp only [truncateStr, if_neg hc2]
  · have hsL : s.length ≤ L := by
      by_contra hcon
      push_neg at hcon
      exact hc ⟨by exact_mod_cast hL, by exact_mod_cast hcon⟩
    have ht : truncateStr (JSNum.val (L : ℚ)) s = s := by
      simp only [truncateStr, if_neg hc]
    rw [ht]
    have hc2 : ¬ (0 < (Lp : ℚ) ∧ (Lp : ℚ) < (s.length : ℚ)) := by
      intro hcon
      have h1 : (Lp : ℚ) < (L : ℚ) := lt_of_lt_of_le hcon.2 (by exact_mod_cast hsL)
      have h2 : Lp < L := by exact_mod_cast h1
      omega
    simp only [truncateStr, if_neg hc2]

theorem truncate_idempotent_amended_witness :
    truncateStr (JSNum.val ((4 : ℕ) : ℚ)) (truncateStr (JSNum.val ((1 : ℕ) : ℚ)) "abc")
      = truncateStr (JSNum.val ((1 : ℕ) : ℚ)) "abc" :=
  truncate_idempotent_amended "abc" 1 4 (by decide) (Or.inr (by decide))



/-! ## C7 — the loose-text parser -/

theorem jget_cons (kv : String × JVal) (rest : Doc) (k : String) :
    jget (kv :: rest) k = if kv.1 = k then some kv.2 else jget rest k := by
  by_cases h : kv.1 = k <;> simp [jget, List.find?, h]

theorem jget_setKey_self (d : Doc) (k : String) (v : JVal) :
    jget (setKey d k v) k = some v := by
  unfold setKey
  by_cases h : d.any (fun kv => kv.1 = k)
  · rw [if_pos h]
    induction d with
    | nil => simp at h
    | cons kv rest ih =>
        by_cases hk : kv.1 = k
        · simp [List.map, jget_cons, hk]
        · have h' : rest.any (fun kv => kv.1 = k) = true := by
            simp only [List.any_cons, Bool.or_eq_true, decide_eq_true_eq] at h
            rcases h with h | h
            · exact absurd h hk
            · exact h
          simp only [List.map]
          rw [if_neg hk, jget_cons]
          rw [if_neg hk]
          exact ih h'
  · rw [if_neg h]
    induction d with
    | nil => simp [jget_cons]
    | cons kv rest ih =>
        have hk : kv.1 ≠ k := by
          intro hcon
          exact h (by simp [List.any_cons, hcon])
        have h' : ¬ rest.any (fun kv => kv.1 = k) = true := by
          intro hcon
          exact h (by simp [List.any_cons, hcon])
        simpa [List.cons_append, jget_cons, hk] using ih h'

theorem jget_setKey_ne {kp k : String} (h : kp ≠ k) (d : Doc) (v : JVal) :
    jget (setKey d k v) kp = jget d kp := by
  unfold setKey
  by_cases hA : d.any (fun kv => kv.1 = k)
  · rw [if_pos hA]
    clear hA
    induction d with
    | nil => rfl
    | cons kv rest ih =>
        by_cases hk : kv.1 = k
        · have hkp : kv.1 ≠ kp := by rw [hk]; exact fun hcon => h hcon.symm
          simp only [List.map]
          rw [if_pos hk, jget_cons, jget_cons]
          rw [if_neg (fun hcon => h hcon.symm), if_neg hkp]
          exact ih
        · simp only [List.map]
          rw [if_neg hk, jget_cons, jget_cons]
          by_cases hkp : kv.1 = kp
          · rw [if_pos hkp, if_pos hkp]
          · rw [if_neg hkp, if_neg hkp]
            exact ih
  · rw [if_neg hA]
    clear hA
    induction d with
    | nil => simp [jget, List.find?, Ne.symm h]
    | cons kv rest ih =>
        rw [List.cons_append, jget_cons, jget_cons]
        by_cases hkp : kv.1 = kp
        · rw [if_pos hkp, if_pos hkp]
        · rw [if_neg hkp, if_neg hkp]
          exact ih

/-- Invariant of the fallback fold: if no matching line rebinds `raw`,
the `raw` entry accumulates exactly the non-matching lines. -/
theorem looseFold_raw (lines : List String) (d : Doc) (acc : List JVal)
    (hl : ∀ l ∈ lines, ∀ kv, matchKV l = some kv → kv.1 ≠ "raw")
    (hd : jget d "raw" = if acc.isEmpty then none else some (JVal.arr acc)) :
    ∃ dp, lines.foldl looseStep (some d) = some dp ∧
      jget dp "raw" =
        (if (acc ++ (lines.filter (fun l => (matchKV l).isNone)).map JVal.str).isEmpty then none
         else some (JVal.arr
           (acc ++ (lines.filter (fun l => (matchKV l).isNone)).map JVal.str))) := by
  induction lines generalizing d acc with
  | nil =>
      refine ⟨d, rfl, ?_⟩
      simp only [List.filter_nil, List.map_nil, List.append_nil]
      exact hd
  | cons l ls ih =>
      cases hm : matchKV l with
      | some kv =>
          have hkv : kv.1 ≠ "raw" := hl l (by simp) kv hm
          have hstep : looseStep (some d) l = some (setKey d kv.1 (coerceValue kv.2)) := by
            simp [looseStep, hm]
          rw [List.foldl_cons, hstep]
          have hd' : jget (setKey d kv.1 (coerceValue kv.2)) "raw" =
              if acc.isEmpty then none else some (JVal.arr acc) := by
            rw [jget_setKey_ne (fun hcon => hkv hcon.symm)]
            exact hd
          have hls : ∀ l' ∈ ls, ∀ kv', matchKV l' = some kv' → kv'.1 ≠ "raw" := by
            intro l' hl' kv' hkv'
            exact hl l' (by simp [hl']) kv' hkv'
          have := ih (setKey d kv.1 (coerceValue kv.2)) acc hls hd'
          rcases this with ⟨dp, hfold, hraw⟩
          refine ⟨dp, hfold, ?_⟩
          simpa only [List.filter_cons, hm, Option.isNone_some, Bool.false_eq_true,
            if_false] using hraw
      | none =>
          have hnext : rawNext (jget d "raw") l = some (JVal.arr (acc ++ [JVal.str l])) := by
            by_cases hacc : acc.isEmpty
            · rw [hd, if_pos hacc]
              have : acc = [] := by
                cases acc with
                | nil => rfl
                | cons a as => simp at hacc
              rw [this]
              rfl
            · rw [hd, if_neg hacc]
              rfl
          have hstep : looseStep (some d) l =
              some (setKey d "raw" (JVal.arr (acc ++ [JVal.str l]))) := by
            simp [looseStep, hm, hnext]
          rw [List.foldl_cons, hstep]
          have hd' : jget (setKey d "raw" (JVal.arr (acc ++ [JVal.str l]))) "raw" =
              if (acc ++ [JVal.str l]).isEmpty then none
              else some (JVal.arr (acc ++ [JVal.str l])) := by
            rw [jget_setKey_self]
            have : (acc ++ [JVal.str l]).isEmpty = false := by
              simp
            rw [this]
            simp
          have hls : ∀ l' ∈ ls, ∀ kv', matchKV l' = some kv' → kv'.1 ≠ "raw" := by
            intro l' hl' kv' hkv'
            exact hl l' (by simp [hl']) kv' hkv'
          have := ih (setKey d "raw" (JVal.arr (acc ++ [JVal.str l]))) (acc ++ [JVal.str l]) hls hd'
          rcases this with ⟨dp, hfold, hraw⟩
          refine ⟨dp, hfold, ?_⟩
          simpa only [List.filter_cons, hm, Option.isNone_none, if_true, List.map_cons,
            List.append_assoc, List.cons_append, List.nil_append] using hraw

/-- C7 (amended): the loose-text fallback.  The first conjunct settles
the documented Scenario 4 verbatim (the non-matching line lands in a
fresh one-element `raw` sequence); the next five settle the documented
value coercions (trailing-comma strip, case-insensitive booleans,
integer and quoted-string handling); the last is the general guarantee
that — provided no *matching* line's own key is `raw` (see
`loose_raw_cex` for why that proviso is necessary) — parsing always
succeeds and the `raw` entry holds exactly the non-matching non-blank
lines, verbatim and in encounter order. -/
theorem loose_parser_behaviour :
    (parseLoose "key1: value1\nbadline\nkey2: 5"
       = some [("key1", JVal.str "value1"), ("raw", JVal.arr [JVal.str "badline"]),
               ("key2", JVal.num 5)])
    ∧ (coerceValue "true" = JVal.bool true)
    ∧ (coerceValue "FALSE," = JVal.bool false)
    ∧ (coerceValue "42" = JVal.num 42)
    ∧ (coerceValue "hello, world" = JVal.str "hello, world")
    ∧ (coerceValue "\"quoted\"," = JVal.str "quoted")
    ∧ (∀ raw : String,
        (∀ l ∈ nonBlankLines raw, ∀ kv, matchKV l = some kv → kv.1 ≠ "raw") →
        ∃ d, parseLoose raw = some d ∧
          jget d "raw" =
            (if ((nonBlankLines raw).filter (fun l => (matchKV l).isNone)).isEmpty then none
             else some (JVal.arr (((nonBlankLines raw).filter
               (fun l => (matchKV l).isNone)).map JVal.str)))) := by
  refine ⟨rfl, rfl, rfl, rfl, rfl, rfl, ?_⟩
  intro raw hl
  have := looseFold_raw (nonBlankLines raw) [] [] hl rfl
  rcases this with ⟨d, hfold, hraw⟩
  refine ⟨d, hfold, ?_⟩
  simpa using hraw

theorem loose_parser_behaviour_witness :
    ∃ d, parseLoose "key1: value1\nbadline\nkey2: 5" = some d ∧
      jget d "raw" =
        (if ((nonBlankLines "key1: value1\nbadline\nkey2: 5").filter
              (fun l => (matchKV l).isNone)).isEmpty then none
         else some (JVal.arr (((nonBlankLines "key1: value1\nbadline\nkey2: 5").filter
           (fun l => (matchKV l).isNone)).map JVal.str))) :=
  loose_parser_behaviour.2.2.2.2.2.2 "key1: value1\nbadline\nkey2: 5"
    (by decide)

/-! ## Ordering lemmas (Policy B) -/

theorem preferredOrder_nodup : preferredOrder.Nodup := by decide

theorem input2Order_getLast : input2Order.getLastD "" = "marketCode" := by decide

theorem mem_orderedB (origin : Doc) (k : String) :
    k ∈ orderedB origin ↔ k ∈ keysOf origin := by
  unfold orderedB
  simp only [List.mem_append, List.mem_filter]
  constructor
  · rintro (⟨hp, hc⟩ | ⟨hk, hc⟩)
    · simpa using hc
    · exact hk
  · intro hk
    by_cases hp : k ∈ preferredOrder
    · exact Or.inl ⟨hp, by simpa using hk⟩
    · exact Or.inr ⟨hk, by simpa using hp⟩

theorem orderedB_nodup (origin : Doc) (h : (keysOf origin).Nodup) :
    (orderedB origin).Nodup := by
  unfold orderedB
  refine (preferredOrder_nodup.filter _).append (h.filter _) ?_
  intro a ha hb
  rw [List.mem_filter] at ha hb
  have h1 : a ∈ preferredOrder := ha.1
  have h2 : a ∉ preferredOrder := by simpa using hb.2
  exact h2 h1

theorem count_orderedB (origin : Doc) (h : (keysOf origin).Nodup) (k : String) :
    (orderedB origin).count k = if k ∈ keysOf origin then 1 else 0 := by
  by_cases hk : k ∈ keysOf origin
  · rw [if_pos hk]
    exact List.count_eq_one_of_mem (orderedB_nodup origin h) ((mem_orderedB origin k).2 hk)
  · rw [if_neg hk]
    exact List.count_eq_zero_of_not_mem (fun hc => hk ((mem_orderedB origin k).1 hc))

theorem isArr_jgetD_mem {origin : Doc} {k : String}
    (h : isArr (jgetD origin k) = true) : k ∈ keysOf origin := by
  cases hj : jget origin k with
  | none => rw [jgetD, hj] at h; simp [isArr] at h
  | some v => exact mem_of_jget_eq_some hj

/-! ## C10 — policy selection is a truthiness test -/

/-- C10: policy dispatch follows JavaScript truthiness of the
`subscriptionNotification` *value*, not key presence.  Given the key is
bound to `v`: the branch condition equals `truthy v`; when `v` is falsy
(`null`, `false`, `0`, `""`) the document renders under Policy B and
`subscriptionNotification` — absent from the Policy B precedence list —
renders as an ordinary scalar entry among the trailing input-order
keys; when `v` is truthy the document renders under Policy A, where the
nested expansion fires exactly for `typeof v === 'object'` values
(objects and arrays) and a truthy non-object renders as a plain scalar
line (comma included, since it is not `marketCode`). -/
theorem policy_selection_truthiness (origin : Doc) (v : JVal)
    (hv : jget origin "subscriptionNotification" = some v) :
    (subTruthy origin = truthy v)
    ∧ (truthy v = false → ∀ ind ind2 tl,
        originToPrettyLinesCore origin ind ind2 tl =
          "\x7b" :: ((orderedB origin).flatMap
            (policyBEntry ind ind2 tl origin ((orderedB origin).getLastD "")) ++ ["\x7d"]))
    ∧ ("subscriptionNotification" ∈ orderedB origin
        ∧ ∀ ind ind2 tl lastKey, policyBEntry ind ind2 tl origin lastKey "subscriptionNotification" =
            [ind ++ "\"" ++ "subscriptionNotification" ++ "\": " ++ formatValue v tl ++
              (if "subscriptionNotification" = lastKey then "" else ",")])
    ∧ (truthy v = true → ∀ ind ind2 tl,
        originToPrettyLinesCore origin ind ind2 tl =
          "\x7b" :: (input2Order.flatMap (policyAEntry ind ind2 tl origin) ++ ["\x7d"]))
    ∧ (isObjLike v = false → ∀ ind ind2 tl,
        policyAEntry ind ind2 tl origin "subscriptionNotification" =
          [ind ++ "\"" ++ "subscriptionNotification" ++ "\": " ++ formatValue v tl ++ ","])
    ∧ (isObjLike v = true → ∀ ind ind2 tl,
        policyAEntry ind ind2 tl origin "subscriptionNotification" =
          subBlockLines ind ind2 tl "subscriptionNotification" v) := by
  have hst : subTruthy origin = truthy v := subTruthy_eq_truthy hv
  have hgd : jgetD origin "subscriptionNotification" = v := jgetD_eq_of_jget hv
  have hhk : hasKey origin "subscriptionNotification" = true := hasKey_of_jget hv
  refine ⟨hst, ?_, ⟨?_, ?_⟩, ?_, ?_, ?_⟩
  · intro hf ind ind2 tl
    unfold originToPrettyLinesCore
    rw [hst, hf]
    simp
  · exact (mem_orderedB origin _).2 (mem_of_jget_eq_some hv)
  · intro ind ind2 tl lastKey
    unfold policyBEntry
    rw [if_neg (by intro hcon; exact absurd hcon.1 (by decide)), hgd]
  · intro ht ind ind2 tl
    unfold originToPrettyLinesCore
    rw [hst, ht]
    simp
  · intro hno ind ind2 tl
    unfold policyAEntry
    rw [if_pos hhk, hgd,
        if_neg (by intro hcon; exact absurd hcon.2 (by simp [hno])),
        input2Order_getLast, if_neg (by decide)]
  · intro hyes ind ind2 tl
    unfold policyAEntry
    rw [if_pos hhk, hgd, if_pos ⟨rfl, hyes⟩]

theorem policy_selection_truthiness_witness :
    subTruthy [("subscriptionNotification", JVal.num 0), ("environment", JVal.str "prod")]
      = truthy (JVal.num 0) :=
  (policy_selection_truthiness
    [("subscriptionNotification", JVal.num 0), ("environment", JVal.str "prod")]
    (JVal.num 0) rfl).1

/-! ## C3 (amended) — the comma rules actually implemented -/

theorem policyBEntry_scalar (ind ind2 : String) (tl : JSNum) (origin : Doc)
    (lastKey k : String) (hp : isArr (jgetD origin "paymentTypeList") = false) :
    policyBEntry ind ind2 tl origin lastKey k =
      [ind ++ "\"" ++ k ++ "\": " ++ formatValue (jgetD origin k) tl ++
        (if k = lastKey then "" else ",")] := by
  unfold policyBEntry
  rw [if_neg]
  intro hcon
  rw [hcon.1] at hcon
  rw [hcon.2] at hp
  exact absurd hp (by simp)

theorem flatMap_singleton_eq_map {α β : Type} (f : α → List β) (g : α → β) (l : List α)
    (h : ∀ a ∈ l, f a = [g a]) : l.flatMap f = l.map g := by
  induction l with
  | nil => rfl
  | cons a t ih =>
      rw [List.flatMap_cons, List.map_cons, h a (by simp),
        ih (fun b hb => h b (by simp [hb]))]
      rfl

theorem policyAEntry_scalar (ind ind2 : String) (tl : JSNum) (origin : Doc) (k : String)
    (hk : hasKey origin k = true)
    (hns : ¬(k = "subscriptionNotification" ∧ isObjLike (jgetD origin k) = true)) :
    policyAEntry ind ind2 tl origin k =
      [ind ++ "\"" ++ k ++ "\": " ++ formatValue (jgetD origin k) tl ++
        (if k = "marketCode" then "" else ",")] := by
  unfold policyAEntry
  rw [if_pos hk, if_neg hns, input2Order_getLast]

/-- C3 (amended): each non-expanded entry renders as one line
`<ind>"<key>": <formattedValue>[,]`, but the comma placement is policy
specific.  Under Policy B (first conjunct; stated for documents with at
least one key, pairwise-distinct keys and no `paymentTypeList` array)
the comma is dropped exactly on the ordered sequence's *last* key, so
exactly the final entry line lacks it.  Under Policy A (second
conjunct) a present, non-expanded key's line drops the comma exactly
when the key is `marketCode` — the last element of the precedence
*list* — independently of which entries are actually present (see
`comma_last_entry_cex`). -/
theorem comma_rule_amended :
    (∀ (origin : Doc) (ind ind2 : String) (tl : JSNum),
      (keysOf origin).Nodup → subTruthy origin = false →
      isArr (jgetD origin "paymentTypeList") = false → origin ≠ [] →
      originToPrettyLinesCore origin ind ind2 tl =
        "\x7b" :: ((orderedB origin).dropLast.map (fun k =>
            ind ++ "\"" ++ k ++ "\": " ++ formatValue (jgetD origin k) tl ++ ",")
          ++ ([ind ++ "\"" ++ ((orderedB origin).getLastD "") ++ "\": "
                ++ formatValue (jgetD origin ((orderedB origin).getLastD "")) tl]
          ++ ["\x7d"])))
    ∧ (∀ (origin : Doc) (ind ind2 : String) (tl : JSNum) (k : String),
        hasKey origin k = true →
        ¬(k = "subscriptionNotification" ∧ isObjLike (jgetD origin k) = true) →
        policyAEntry ind ind2 tl origin k =
          [ind ++ "\"" ++ k ++ "\": " ++ formatValue (jgetD origin k) tl ++
            (if k = "marketCode" then "" else ",")]) := by
  constructor
  · intro origin ind ind2 tl hnd hsub hp hne
    have hkne : keysOf origin ≠ [] := by
      intro hcon
      apply hne
      cases origin with
      | nil => rfl
      | cons kv rest => simp [keysOf] at hcon
    have hone : orderedB origin ≠ [] := by
      intro hcon
      rcases List.exists_mem_of_ne_nil _ hkne with ⟨k, hk⟩
      have := (mem_orderedB origin k).2 hk
      rw [hcon] at this
      simp at this
    set L := (orderedB origin).getLastD "" with hLdef
    have hLlast : L = (orderedB origin).getLast hone := by
      rw [hLdef, List.getLastD_eq_getLast?, List.getLast?_eq_getLast _ hone]
      rfl
    have hsplit : (orderedB origin).dropLast ++ [L] = orderedB origin := by
      rw [hLlast]
      exact List.dropLast_append_getLast hone
    have hnodup : ((orderedB origin).dropLast ++ [L]).Nodup := by
      rw [hsplit]
      exact orderedB_nodup origin hnd
    have hdrop : ∀ k ∈ (orderedB origin).dropLast, k ≠ L := by
      intro k hk
      rcases List.nodup_append.1 hnodup with ⟨_, _, hdisj⟩
      intro hcon
      exact hdisj hk (by simp [hcon])
    unfold originToPrettyLinesCore
    rw [hsub]
    simp only [Bool.false_eq_true, if_false]
    rw [← hLdef]
    have hmap : ((orderedB origin).dropLast).flatMap (policyBEntry ind ind2 tl origin L)
        = ((orderedB origin).dropLast).map (fun k =>
            ind ++ "\"" ++ k ++ "\": " ++ formatValue (jgetD origin k) tl ++ ",") := by
      apply flatMap_singleton_eq_map
      intro k hk
      rw [policyBEntry_scalar ind ind2 tl origin L k hp, if_neg (hdrop k hk)]
    have hlastblock : [L].flatMap (policyBEntry ind ind2 tl origin L)
        = [ind ++ "\"" ++ L ++ "\": " ++ formatValue (jgetD origin L) tl] := by
      show policyBEntry ind ind2 tl origin L L ++ [] = _
      rw [List.append_nil, policyBEntry_scalar ind ind2 tl origin L L hp, if_pos rfl]
      simp
    have hflat : (orderedB origin).flatMap (policyBEntry ind ind2 tl origin L)
        = ((orderedB origin).dropLast.map (fun k =>
            ind ++ "\"" ++ k ++ "\": " ++ formatValue (jgetD origin k) tl ++ ","))
          ++ [ind ++ "\"" ++ L ++ "\": " ++ formatValue (jgetD origin L) tl] := by
      conv_lhs => rw [← hsplit]
      rw [List.flatMap_append, hmap, hlastblock]
    rw [hflat, List.append_assoc]
  · intro origin ind ind2 tl k hk hns
    exact policyAEntry_scalar ind ind2 tl origin k hk hns

theorem comma_rule_amended_witness :
    originToPrettyLinesCore [("msgVersion", JVal.str "1.0"), ("clientId", JVal.str "abc")]
        "" "" (JSNum.val 0) =
      "\x7b" :: ((orderedB [("msgVersion", JVal.str "1.0"), ("clientId", JVal.str "abc")]).dropLast.map
          (fun k => "" ++ "\"" ++ k ++ "\": "
            ++ formatValue (jgetD [("msgVersion", JVal.str "1.0"), ("clientId", JVal.str "abc")] k)
                 (JSNum.val 0) ++ ",")
        ++ (["" ++ "\""
              ++ ((orderedB [("msgVersion", JVal.str "1.0"), ("clientId", JVal.str "abc")]).getLastD "")
              ++ "\": "
              ++ formatValue
                   (jgetD [("msgVersion", JVal.str "1.0"), ("clientId", JVal.str "abc")]
                     ((orderedB [("msgVersion", JVal.str "1.0"), ("clientId", JVal.str "abc")]).getLastD ""))
                   (JSNum.val 0)]
        ++ ["\x7d"])) :=
  comma_rule_amended.1 [("msgVersion", JVal.str "1.0"), ("clientId", JVal.str "abc")]
    "" "" (JSNum.val 0) (by decide) (by decide) (by decide) (List.cons_ne_nil _ _)

/-! ## C4 (amended) — exact line-count formulas -/

theorem input2Order_nodup : input2Order.Nodup := by decide

theorem subBlockLines_length (ind ind2 : String) (tl : JSNum) (key : String) (val : JVal) :
    (subBlockLines ind ind2 tl key val).length = (jsObjectEntries val).length + 2 := by
  unfold subBlockLines
  simp [List.length_append, List.length_map, List.enum_length]

theorem jgetD_null_of_not_hasKey {origin : Doc} {k : String}
    (h : hasKey origin k = false) : jgetD origin k = JVal.null := by
  rw [hasKey_eq_isSome] at h
  cases hj : jget origin k with
  | none => simp [jgetD, hj]
  | some v => rw [hj] at h; simp at h

theorem policyAEntry_length (ind ind2 : String) (tl : JSNum) (origin : Doc) (k : String) :
    (policyAEntry ind ind2 tl origin k).length =
      if hasKey origin k = true then
        1 + (if k = "subscriptionNotification" ∧ isObjLike (jgetD origin k) = true then
              (jsObjectEntries (jgetD origin k)).length + 1 else 0)
      else 0 := by
  unfold policyAEntry
  by_cases hk : hasKey origin k = true
  · rw [if_pos hk, if_pos hk]
    by_cases hc : k = "subscriptionNotification" ∧ isObjLike (jgetD origin k) = true
    · rw [if_pos hc, if_pos hc, subBlockLines_length]
      omega
    · rw [if_neg hc, if_neg hc]
      rfl
  · rw [if_neg hk, if_neg hk]
    rfl

theorem policyBEntry_length (ind ind2 : String) (tl : JSNum) (origin : Doc) (lastKey k : String) :
    (policyBEntry ind ind2 tl origin lastKey k).length =
      1 + (if k = "paymentTypeList" ∧ isArr (jgetD origin k) = true then
            (arrItems (jgetD origin k)).length + 1 else 0) := by
  unfold policyBEntry
  by_cases hc : k = "paymentTypeList" ∧ isArr (jgetD origin k) = true
  · rw [if_pos hc, if_pos hc]
    simp [List.length_append, List.length_map, List.enum_length]
    omega
  · rw [if_neg hc, if_neg hc]
    rfl

theorem sum_map_split (l : List String) (hnd : l.Nodup) (k0 : String)
    (f g : String → Nat) (e : Nat)
    (hfg : ∀ k ∈ l, f k = g k + (if k = k0 then e else 0)) :
    (l.map f).sum = (l.map g).sum + (if k0 ∈ l then e else 0) := by
  induction l with
  | nil => simp
  | cons a t ih =>
      rcases List.nodup_cons.1 hnd with ⟨ha, ht⟩
      rw [List.map_cons, List.sum_cons, List.map_cons, List.sum_cons,
        hfg a (by simp), ih ht (fun k hk => hfg k (by simp [hk]))]
      by_cases hak : a = k0
      · subst hak
        rw [if_pos rfl, if_neg ha, if_pos (List.mem_cons_self a t)]
        omega
      · rw [if_neg hak]
        by_cases hkt : k0 ∈ t
        · rw [if_pos hkt, if_pos (List.mem_cons_of_mem a hkt)]
          omega
        · have hnmem : k0 ∉ a :: t := by
            simp only [List.mem_cons, not_or]
            exact ⟨fun h => hak h.symm, hkt⟩
          rw [if_neg hkt, if_neg hnmem]
          omega

theorem sum_map_ones (l : List String) : (l.map (fun _ => (1 : Nat))).sum = l.length := by
  induction l with
  | nil => rfl
  | cons a t ih =>
      simp [ih]
      omega

theorem sum_map_indicator (p : String → Bool) (l : List String) :
    (l.map (fun k => if p k = true then 1 else 0)).sum = (l.filter p).length := by
  induction l with
  | nil => rfl
  | cons a t ih =>
      by_cases h : p a = true <;> simp [List.filter_cons, h, ih] <;> omega

theorem orderedB_length (origin : Doc) (h : (keysOf origin).Nodup) :
    (orderedB origin).length = origin.length := by
  have hperm : (preferredOrder.filter (fun k => (keysOf origin).contains k)).Perm
      ((keysOf origin).filter (fun k => preferredOrder.contains k)) := by
    rw [List.perm_ext_iff_of_nodup (preferredOrder_nodup.filter _) (h.filter _)]
    intro a
    simp only [List.mem_filter, List.elem_iff]
    tauto
  unfold orderedB
  rw [List.length_append, hperm.length_eq]
  have hk : (keysOf origin).length = origin.length := by simp [keysOf]
  rw [← hk, List.length_eq_length_filter_add (l := keysOf origin)
    (fun k => preferredOrder.contains k)]

/-- Helper: the exact line counts of the total renderer.  Policy B
(first conjunct): two brace lines, one line per top-level key, plus —
when `paymentTypeList` holds an array of `n` items — `n + 1` extra
lines.  Policy A (second conjunct): two brace lines, one line per
precedence-list key present in the input, plus — when the subscription
value is object-like with `m` enumerable entries — `m + 1` extra
lines. -/
theorem line_count_total :
    (∀ (origin : Doc) (ind ind2 : String) (tl : JSNum),
      (keysOf origin).Nodup → subTruthy origin = false →
      (originToPrettyLinesCore origin ind ind2 tl).length =
        2 + origin.length +
          (if isArr (jgetD origin "paymentTypeList") = true then
            (arrItems (jgetD origin "paymentTypeList")).length + 1 else 0))
    ∧ (∀ (origin : Doc) (ind ind2 : String) (tl : JSNum),
        subTruthy origin = true →
        (originToPrettyLinesCore origin ind ind2 tl).length =
          2 + (input2Order.filter (fun k => hasKey origin k)).length +
            (if isObjLike (jgetD origin "subscriptionNotification") = true then
              (jsObjectEntries (jgetD origin "subscriptionNotification")).length + 1 else 0)) := by
  constructor
  · intro origin ind ind2 tl hnd hsub
    set e : Nat := if isArr (jgetD origin "paymentTypeList") = true then
        (arrItems (jgetD origin "paymentTypeList")).length + 1 else 0 with he
    unfold originToPrettyLinesCore
    rw [hsub]
    simp only [Bool.false_eq_true, if_false, List.length_cons, List.length_append,
      List.length_flatMap]
    have hsum : (List.map (List.length ∘ policyBEntry ind ind2 tl origin
          ((orderedB origin).getLastD "")) (orderedB origin)).sum
        = (List.map (fun _ => (1 : Nat)) (orderedB origin)).sum +
            (if "paymentTypeList" ∈ orderedB origin then e else 0) := by
      apply sum_map_split (orderedB origin) (orderedB_nodup origin hnd) "paymentTypeList"
      intro k hk
      show (policyBEntry ind ind2 tl origin ((orderedB origin).getLastD "") k).length = _
      rw [policyBEntry_length]
      by_cases hkp : k = "paymentTypeList"
      · subst hkp
        rw [if_pos rfl]
        by_cases ha : isArr (jgetD origin "paymentTypeList") = true
        · rw [if_pos ⟨rfl, ha⟩, he, if_pos ha]
        · rw [if_neg (fun hcon => ha hcon.2), he, if_neg ha]
      · rw [if_neg hkp, if_neg (fun hcon => hkp hcon.1)]
    have hmem : (if "paymentTypeList" ∈ orderedB origin then e else 0) = e := by
      by_cases ha : isArr (jgetD origin "paymentTypeList") = true
      · rw [if_pos ((mem_orderedB origin _).2 (isArr_jgetD_mem ha))]
      · have : e = 0 := by rw [he, if_neg ha]
        rw [this]
        simp
    rw [hsum, hmem, sum_map_ones, orderedB_length origin hnd]
    clear_value e
    simp only [List.length_nil]
    omega
  · intro origin ind ind2 tl hsub
    set e : Nat := if isObjLike (jgetD origin "subscriptionNotification") = true then
        (jsObjectEntries (jgetD origin "subscriptionNotification")).length + 1 else 0 with he
    unfold originToPrettyLinesCore
    rw [hsub]
    simp only [if_true, List.length_cons, List.length_append, List.length_flatMap]
    have hsum : (List.map (List.length ∘ policyAEntry ind ind2 tl origin) input2Order).sum
        = (List.map (fun k => if hasKey origin k = true then 1 else 0) input2Order).sum +
            (if "subscriptionNotification" ∈ input2Order then e else 0) := by
      apply sum_map_split input2Order input2Order_nodup "subscriptionNotification"
      intro k hk
      show (policyAEntry ind ind2 tl origin k).length = _
      rw [policyAEntry_length]
      by_cases hks : k = "subscriptionNotification"
      · subst hks
        by_cases hkk : hasKey origin "subscriptionNotification" = true
        · by_cases ho : isObjLike (jgetD origin "subscriptionNotification") = true
          · simp [hkk, ho, he]
          · simp [hkk, ho, he]
        · have hnull : jgetD origin "subscriptionNotification" = JVal.null :=
            jgetD_null_of_not_hasKey (by simpa using hkk)
          simp [hkk, he, hnull, isObjLike]
      · simp [hks]
    have hmem : (if "subscriptionNotification" ∈ input2Order then e else 0) = e := by
      rw [if_pos (by decide)]
    rw [hsum, hmem, sum_map_indicator (fun k => hasKey origin k) input2Order]
    clear_value e
    simp only [List.length_nil]
    omega

/-! ## Bridging the fallible and the total renderer -/

theorem jgetPropF_eq (v : JVal) (k : String) (h : isNull v = false) :
    jgetPropF v k = some (jgetProp v k) := by
  cases v <;> simp_all [isNull, jgetPropF, jgetProp]

theorem paymentItemLineF_eq (ind2 : String) (tl : JSNum) (len : Nat) (p : Nat × JVal)
    (h : isNull p.2 = false) :
    paymentItemLineF ind2 tl len p = some (paymentItemLine ind2 tl len p) := by
  unfold paymentItemLineF paymentItemLine
  rw [jgetPropF_eq _ _ h, jgetPropF_eq _ _ h]

theorem paymentItemLineF_none_iff (ind2 : String) (tl : JSNum) (len : Nat) (p : Nat × JVal) :
    paymentItemLineF ind2 tl len p = none ↔ isNull p.2 = true := by
  cases hp : p.2 <;> simp [paymentItemLineF, jgetPropF, isNull, hp]

theorem optionMapList_eq_map {α β : Type} (f : α → Option β) (g : α → β) (l : List α)
    (h : ∀ a ∈ l, f a = some (g a)) : optionMapList f l = some (l.map g) := by
  induction l with
  | nil => rfl
  | cons a t ih =>
      simp only [optionMapList, h a (by simp),
        ih (fun b hb => h b (by simp [hb])), List.map_cons]

theorem optionMapList_eq_none_iff {α β : Type} (f : α → Option β) (l : List α) :
    optionMapList f l = none ↔ ∃ a ∈ l, f a = none := by
  induction l with
  | nil => simp [optionMapList]
  | cons a t ih =>
      cases hf : f a with
      | none => simp [optionMapList, hf]
      | some b =>
          cases ht : optionMapList f t with
          | none =>
              simp only [optionMapList, hf, ht]
              constructor
              · intro _
                rcases ih.1 ht with ⟨x, hx, hfx⟩
                exact ⟨x, by simp [hx], hfx⟩
              · intro _
                trivial
          | some bs =>
              simp only [optionMapList, hf, ht]
              constructor
              · intro hcon
                exact Option.noConfusion hcon
              · rintro ⟨x, hx, hfx⟩
                rcases List.mem_cons.1 hx with rfl | hx'
                · rw [hf] at hfx
                  exact Option.noConfusion hfx
                · have := ih.2 ⟨x, hx', hfx⟩
                  rw [ht] at this
                  exact Option.noConfusion this

theorem any_snd_enumFrom {α : Type} (q : α → Bool) (l : List α) (i : Nat) :
    (List.enumFrom i l).any (fun p => q p.2) = l.any q := by
  induction l generalizing i with
  | nil => rfl
  | cons a t ih => simp [List.enumFrom, List.any_cons, ih]

theorem any_snd_enum {α : Type} (q : α → Bool) (l : List α) :
    l.enum.any (fun p => q p.2) = l.any q :=
  any_snd_enumFrom q l 0

theorem isArr_of_any_isNull {v : JVal} (h : (arrItems v).any isNull = true) :
    isArr v = true := by
  cases v <;> simp_all [arrItems, isArr]

theorem policyBEntryF_eq_total (ind ind2 : String) (tl : JSNum) (origin : Doc)
    (lastKey key : String)
    (h : key = "paymentTypeList" → (arrItems (jgetD origin key)).any isNull = false) :
    policyBEntryF ind ind2 tl origin lastKey key
      = some (policyBEntry ind ind2 tl origin lastKey key) := by
  unfold policyBEntryF policyBEntry
  by_cases hc : key = "paymentTypeList" ∧ isArr (jgetD origin key) = true
  · rw [if_pos hc, if_pos hc]
    have hsome : ∀ p ∈ (arrItems (jgetD origin key)).enum,
        paymentItemLineF ind2 tl (arrItems (jgetD origin key)).length p
          = some (paymentItemLine ind2 tl (arrItems (jgetD origin key)).length p) := by
      intro p hp
      apply paymentItemLineF_eq
      have hmem : p.2 ∈ arrItems (jgetD origin key) := by
        rw [← List.enum_map_snd (arrItems (jgetD origin key))]
        exact List.mem_map_of_mem Prod.snd hp
      have hall := List.any_eq_false.1 (h hc.1)
      simpa using hall p.2 hmem
    rw [optionMapList_eq_map _ _ _ hsome]
  · rw [if_neg hc, if_neg hc]

theorem policyBEntryF_eq_none_iff (ind ind2 : String) (tl : JSNum) (origin : Doc)
    (lastKey key : String) :
    policyBEntryF ind ind2 tl origin lastKey key = none ↔
      (key = "paymentTypeList" ∧ isArr (jgetD origin key) = true ∧
        (arrItems (jgetD origin key)).any isNull = true) := by
  unfold policyBEntryF
  by_cases hc : key = "paymentTypeList" ∧ isArr (jgetD origin key) = true
  · rw [if_pos hc]
    have hiff : optionMapList (paymentItemLineF ind2 tl (arrItems (jgetD origin key)).length)
        (arrItems (jgetD origin key)).enum = none ↔
        (arrItems (jgetD origin key)).any isNull = true := by
      rw [optionMapList_eq_none_iff,
        ← any_snd_enum isNull (arrItems (jgetD origin key)), List.any_eq_true]
      constructor
      · rintro ⟨p, hp, hnone⟩
        exact ⟨p, hp, (paymentItemLineF_none_iff _ _ _ _).1 hnone⟩
      · rintro ⟨p, hp, hnull⟩
        exact ⟨p, hp, (paymentItemLineF_none_iff _ _ _ _).2 hnull⟩
    cases hm : optionMapList (paymentItemLineF ind2 tl (arrItems (jgetD origin key)).length)
        (arrItems (jgetD origin key)).enum with
    | none =>
        constructor
        · intro _
          exact ⟨hc.1, hc.2, hiff.1 hm⟩
        · intro _
          rfl
    | some items =>
        constructor
        · intro hcon
          exact Option.noConfusion hcon
        · rintro ⟨h1, h2, h3⟩
          rw [hiff.2 h3] at hm
          exact Option.noConfusion hm
  · rw [if_neg hc]
    constructor
    · intro hcon
      exact Option.noConfusion hcon
    · rintro ⟨h1, h2, h3⟩
      exact absurd ⟨h1, h2⟩ hc

theorem coreF_eq_total (origin : Doc) (ind ind2 : String) (tl : JSNum)
    (h : (arrItems (jgetD origin "paymentTypeList")).any isNull = false) :
    originToPrettyLinesCoreF origin ind ind2 tl
      = some (originToPrettyLinesCore origin ind ind2 tl) := by
  unfold originToPrettyLinesCoreF originToPrettyLinesCore
  by_cases hsub : subTruthy origin = true
  · rw [if_pos hsub, if_pos hsub]
  · rw [if_neg hsub, if_neg hsub]
    rw [optionMapList_eq_map _
      (policyBEntry ind ind2 tl origin ((orderedB origin).getLastD "")) _
      (fun k hk => policyBEntryF_eq_total ind ind2 tl origin _ k
        (fun heq => by rw [heq]; exact h))]
    simp [List.flatMap]

theorem coreF_eq_none_iff (origin : Doc) (ind ind2 : String) (tl : JSNum) :
    originToPrettyLinesCoreF origin ind ind2 tl = none ↔
      (subTruthy origin = false ∧ isArr (jgetD origin "paymentTypeList") = true ∧
        (arrItems (jgetD origin "paymentTypeList")).any isNull = true) := by
  unfold originToPrettyLinesCoreF
  by_cases hsub : subTruthy origin = true
  · rw [if_pos hsub]
    simp [hsub]
  · rw [if_neg hsub]
    have hsub' : subTruthy origin = false := by simpa using hsub
    have hiff : optionMapList (policyBEntryF ind ind2 tl origin ((orderedB origin).getLastD ""))
        (orderedB origin) = none ↔
        (isArr (jgetD origin "paymentTypeList") = true ∧
          (arrItems (jgetD origin "paymentTypeList")).any isNull = true) := by
      rw [optionMapList_eq_none_iff]
      constructor
      · rintro ⟨k, hk, hnone⟩
        rcases (policyBEntryF_eq_none_iff ind ind2 tl origin _ k).1 hnone with ⟨h1, h2, h3⟩
        rw [h1] at h2 h3
        exact ⟨h2, h3⟩
      · rintro ⟨h2, h3⟩
        refine ⟨"paymentTypeList", ?_, ?_⟩
        · exact (mem_orderedB origin _).2 (isArr_jgetD_mem h2)
        · exact (policyBEntryF_eq_none_iff ind ind2 tl origin _ _).2 ⟨rfl, h2, h3⟩
    cases hm : optionMapList (policyBEntryF ind ind2 tl origin ((orderedB origin).getLastD ""))
        (orderedB origin) with
    | none =>
        simp [hsub', hiff.1 hm]
    | some blocks =>
        constructor
        · intro hcon
          exact Option.noConfusion hcon
        · rintro ⟨_, h2, h3⟩
          rw [hiff.2 ⟨h2, h3⟩] at hm
          exact Option.noConfusion hm

theorem originToPrettyLinesF_val_nat (origin : Doc) (n : ℕ) (tl : JSNum) :
    originToPrettyLinesF origin (.val (n : ℚ)) tl =
      originToPrettyLinesCoreF origin (nbspStr n) (nbspStr (n + 2)) tl := by
  unfold originToPrettyLinesF
  rw [jnAdd2_val_natCast, indentOf_val_natCast, indentOf_val_natCast]

/-- C4 (amended): the exact rendered line counts for completing runs,
and the exact failure condition.  Whenever the conversion completes
(`originToPrettyLinesCoreF … = some lines`): under Policy B (first
conjunct) there are two brace lines, one line per top-level key, plus —
when `paymentTypeList` holds an array of `n` items — `n + 1` extra
lines (the `n` item lines and the closing `],`; the opening line
doubles as the key's own line); under Policy A (second conjunct) only
the precedence-list keys present in the input are counted (all other
keys are silently dropped, which is what falsifies the claim as stated
— see `line_count_cex`), plus — when the subscription value is
object-like with `m` enumerable entries — `m + 1` extra lines.  Third
conjunct: the conversion fails to complete exactly when Policy B
reaches a `paymentTypeList` array containing a `null` item, on which
the source throws a `TypeError` and renders nothing. -/
theorem line_count_amended :
    (∀ (origin : Doc) (ind ind2 : String) (tl : JSNum) (lines : List String),
      (keysOf origin).Nodup → subTruthy origin = false →
      originToPrettyLinesCoreF origin ind ind2 tl = some lines →
      lines.length = 2 + origin.length +
        (if isArr (jgetD origin "paymentTypeList") = true then
          (arrItems (jgetD origin "paymentTypeList")).length + 1 else 0))
    ∧ (∀ (origin : Doc) (ind ind2 : String) (tl : JSNum) (lines : List String),
        subTruthy origin = true →
        originToPrettyLinesCoreF origin ind ind2 tl = some lines →
        lines.length = 2 + (input2Order.filter (fun k => hasKey origin k)).length +
          (if isObjLike (jgetD origin "subscriptionNotification") = true then
            (jsObjectEntries (jgetD origin "subscriptionNotification")).length + 1 else 0))
    ∧ (∀ (origin : Doc) (ind ind2 : String) (tl : JSNum),
        originToPrettyLinesCoreF origin ind ind2 tl = none ↔
          (subTruthy origin = false ∧ isArr (jgetD origin "paymentTypeList") = true ∧
            (arrItems (jgetD origin "paymentTypeList")).any isNull = true)) := by
  refine ⟨?_, ?_, fun origin ind ind2 tl => coreF_eq_none_iff origin ind ind2 tl⟩
  · intro origin ind ind2 tl lines hnd hsub hrender
    have hok : (arrItems (jgetD origin "paymentTypeList")).any isNull = false := by
      by_contra hcon
      have hany : (arrItems (jgetD origin "paymentTypeList")).any isNull = true := by
        simpa using hcon
      have hnone : originToPrettyLinesCoreF origin ind ind2 tl = none :=
        (coreF_eq_none_iff origin ind ind2 tl).2 ⟨hsub, isArr_of_any_isNull hany, hany⟩
      rw [hnone] at hrender
      exact Option.noConfusion hrender
    rw [coreF_eq_total origin ind ind2 tl hok] at hrender
    rw [(Option.some.inj hrender).symm]
    exact line_count_total.1 origin ind ind2 tl hnd hsub
  · intro origin ind ind2 tl lines hsub hrender
    have heq : originToPrettyLinesCoreF origin ind ind2 tl
        = some (originToPrettyLinesCore origin ind ind2 tl) := by
      unfold originToPrettyLinesCoreF originToPrettyLinesCore
      rw [if_pos hsub, if_pos hsub]
    rw [heq] at hrender
    rw [(Option.some.inj hrender).symm]
    exact line_count_total.2 origin ind ind2 tl hsub

theorem line_count_amended_witness :
    (["\x7b", "\"clientId\": \"abc\",", "\"extra\": 1", "\x7d"] : List String).length =
      2 + ([("clientId", JVal.str "abc"), ("extra", JVal.num 1)] : Doc).length +
        (if isArr (jgetD [("clientId", JVal.str "abc"), ("extra", JVal.num 1)]
            "paymentTypeList") = true then
          (arrItems (jgetD [("clientId", JVal.str "abc"), ("extra", JVal.num 1)]
            "paymentTypeList")).length + 1 else 0) :=
  line_count_amended.1 [("clientId", JVal.str "abc"), ("extra", JVal.num 1)] "" "" (JSNum.val 0)
    ["\x7b", "\"clientId\": \"abc\",", "\"extra\": 1", "\x7d"]
    (by decide) (by decide) (by decide)

/-! ## C5 — Policy B key coverage -/

theorem takeWhile_until_quote (a b : List Char) (ha : ∀ c ∈ a, c ≠ '"') :
    (a ++ '"' :: b).takeWhile (fun c => c ≠ '"') = a := by
  induction a with
  | nil => simp [List.takeWhile_cons]
  | cons x t ih =>
      have hx : x ≠ '"' := ha x (by simp)
      have ih' := ih (fun c hc => ha c (by simp [hc]))
      simp only [ne_eq, decide_not] at ih'
      simp [List.cons_append, List.takeWhile_cons, hx, ih']

theorem nbspStr_quote_data (n : Nat) :
    (nbspStr n ++ "\"").data = List.replicate n nbspChar ++ ['"'] := by
  rw [String.data_append]
  rfl

theorem extractKey_entry (n : Nat) (k rest : String)
    (hk : ∀ c ∈ k.data, c ≠ '"') :
    extractKey n (nbspStr n ++ "\"" ++ k ++ "\": " ++ rest) = some k := by
  unfold extractKey strIsPrefix
  have hline : (nbspStr n ++ "\"" ++ k ++ "\": " ++ rest).data
      = (List.replicate n nbspChar ++ ['"']) ++ (k.data ++ '"' :: ':' :: ' ' :: rest.data) := by
    simp [nbspStr, String.data_append, List.append_assoc]
  rw [hline, nbspStr_quote_data]
  rw [if_pos]
  · have hlen : (List.replicate n nbspChar ++ ['"']).length = n + 1 := by simp
    rw [← hlen, List.drop_left]
    rw [takeWhile_until_quote k.data (':' :: ' ' :: rest.data) hk]
  · rw [List.isPrefixOf_iff_prefix]
    exact List.prefix_append _ _

theorem extractKey_none_head (n : Nat) (l : String) (c : Char) (t : List Char)
    (hdata : l.data = List.replicate n nbspChar ++ c :: t) (hc : c ≠ '"') :
    extractKey n l = none := by
  unfold extractKey strIsPrefix
  rw [if_neg]
  intro hcon
  rw [hdata, nbspStr_quote_data, List.isPrefixOf_iff_prefix,
    List.prefix_append_right_inj, List.cons_prefix_cons] at hcon
  exact hc hcon.1.symm

theorem extractKey_none_short (n : Nat) (l : String) (hlen : l.data.length < n + 1) :
    extractKey n l = none := by
  unfold extractKey strIsPrefix
  rw [if_neg]
  intro hcon
  rw [nbspStr_quote_data, List.isPrefixOf_iff_prefix] at hcon
  have hle := hcon.length_le
  simp at hle
  have hdl : l.data.length = l.length := rfl
  omega

theorem extractKey_lbrace (n : Nat) : extractKey n "\x7b" = none := by
  cases n with
  | zero => exact extractKey_none_head 0 "\x7b" '{' [] rfl (by decide)
  | succ m =>
      apply extractKey_none_short
      have : ("\x7b" : String).data.length = 1 := rfl
      omega

theorem extractKey_rbrace (n : Nat) : extractKey n "\x7d" = none := by
  cases n with
  | zero => exact extractKey_none_head 0 "\x7d" '}' [] rfl (by decide)
  | succ m =>
      apply extractKey_none_short
      have : ("\x7d" : String).data.length = 1 := rfl
      omega

theorem extractKey_none_ind2 (n : Nat) (r : String) :
    extractKey n (nbspStr (n + 2) ++ r) = none := by
  apply extractKey_none_head n _ nbspChar (nbspChar :: r.data) ?_ (by decide)
  rw [String.data_append]
  show List.replicate (n + 2) nbspChar ++ r.data
      = List.replicate n nbspChar ++ nbspChar :: nbspChar :: r.data
  rw [List.replicate_add]
  simp [List.append_assoc]

theorem paymentItemLine_extract_none (n : Nat) (tl : JSNum) (len : Nat) (p : Nat × JVal) :
    extractKey n (paymentItemLine (nbspStr (n + 2)) tl len p) = none := by
  unfold paymentItemLine
  simp only [String.append_assoc]
  exact extractKey_none_ind2 n _

theorem extractKey_none_bracket (n : Nat) : extractKey n (nbspStr n ++ "],") = none := by
  apply extractKey_none_head n _ ']' [','] ?_ (by decide)
  rw [String.data_append]
  rfl

theorem filterMap_flatMap_eq (n : Nat) (l : List String) (f : String → List String)
    (h : ∀ a ∈ l, (f a).filterMap (extractKey n) = [a]) :
    (l.flatMap f).filterMap (extractKey n) = l := by
  induction l with
  | nil => rfl
  | cons a t ih =>
      rw [List.flatMap_cons, List.filterMap_append, h a (by simp),
        ih (fun b hb => h b (by simp [hb]))]
      rfl

theorem policyBEntry_extract (n : Nat) (tl : JSNum) (origin : Doc) (lastKey k : String)
    (hk : ∀ c ∈ k.data, c ≠ '"') :
    (policyBEntry (nbspStr n) (nbspStr (n + 2)) tl origin lastKey k).filterMap (extractKey n)
      = [k] := by
  unfold policyBEntry
  by_cases hc : k = "paymentTypeList" ∧ isArr (jgetD origin k) = true
  · rw [if_pos hc]
    rw [List.filterMap_cons]
    have hopen : (nbspStr n ++ "\"" ++ k ++ "\": [") = (nbspStr n ++ "\"" ++ k ++ "\": " ++ "[") := by
      simp only [String.append_assoc]
      rfl
    rw [hopen, extractKey_entry n k "[" hk]
    rw [List.filterMap_append]
    have hitems : (((arrItems (jgetD origin k)).enum.map
        (paymentItemLine (nbspStr (n + 2)) tl (arrItems (jgetD origin k)).length)).filterMap
          (extractKey n)) = [] := by
      rw [List.filterMap_eq_nil_iff]
      intro l hl
      rcases List.mem_map.1 hl with ⟨p, hp, rfl⟩
      exact paymentItemLine_extract_none n tl _ p
    have hclose : (([nbspStr n ++ "],"]).filterMap (extractKey n)) = [] := by
      rw [List.filterMap_cons, extractKey_none_bracket]
      rfl
    rw [hitems, hclose]
    rfl
  · rw [if_neg hc]
    rw [List.filterMap_cons]
    have hline : (nbspStr n ++ "\"" ++ k ++ "\": " ++ formatValue (jgetD origin k) tl
          ++ (if k = lastKey then "" else ","))
        = (nbspStr n ++ "\"" ++ k ++ "\": "
            ++ (formatValue (jgetD origin k) tl ++ (if k = lastKey then "" else ","))) := by
      simp only [String.append_assoc]
    rw [hline, extractKey_entry n k _ hk]
    rfl

/-- Helper: key coverage of the total Policy B renderer — reading the
rendered lines back through `extractKey` recovers exactly the ordered
key sequence `orderedB`, in which every input key occurs exactly
once. -/
theorem renderedKeys_total (origin : Doc) (n : ℕ) (tl : JSNum)
    (hnd : (keysOf origin).Nodup)
    (hq : ∀ k ∈ keysOf origin, ∀ c ∈ k.data, c ≠ '"')
    (hsub : hasKey origin "subscriptionNotification" = false) :
    renderedKeys n (originToPrettyLines origin (JSNum.val (n : ℚ)) tl) = orderedB origin
    ∧ (∀ k, (orderedB origin).count k = if k ∈ keysOf origin then 1 else 0) := by
  refine ⟨?_, count_orderedB origin hnd⟩
  rw [originToPrettyLines_val_nat]
  unfold renderedKeys originToPrettyLinesCore
  rw [subTruthy_false_of_not_hasKey hsub]
  simp only [Bool.false_eq_true, if_false]
  rw [List.filterMap_cons, extractKey_lbrace, List.filterMap_append]
  have hbrace : (["\x7d"]).filterMap (extractKey n) = [] := by
    rw [List.filterMap_cons, extractKey_rbrace]
    rfl
  rw [hbrace, filterMap_flatMap_eq n (orderedB origin)
    (policyBEntry (nbspStr n) (nbspStr (n + 2)) tl origin ((orderedB origin).getLastD ""))
    (fun k hk => policyBEntry_extract n tl origin ((orderedB origin).getLastD "") k
      (hq k ((mem_orderedB origin k).1 hk)))]
  simp

/-- C5 (counterexample): at the Policy B document
`{"paymentTypeList":[null]}` the source throws a `TypeError` on
`item.paymentMethod` (part_001 line 167) and renders nothing at all, so
the document's one top-level key appears on *no* rendered line: the
claim as stated — every top-level input key appears exactly once among
the rendered lines — fails at this input. -/
theorem policyB_key_coverage_cex :
    originToPrettyLinesF [("paymentTypeList", JVal.arr [JVal.null])]
      (JSNum.val ((5 : ℕ) : ℚ)) (JSNum.val 0) = none := by
  rw [originToPrettyLinesF_val_nat]
  decide

/-- C5 (amended): Policy B key coverage for completing runs.  For every
document without the subscription-notification key (keys pairwise
distinct and — so that entry lines are unambiguous — quote-free) whose
conversion completes (`some lines`; a `null` `paymentTypeList` item
instead throws and renders nothing, see `policyB_key_coverage_cex`),
reading the rendered lines back through `extractKey` recovers exactly
the ordered key sequence: each entry-opening line carries one key (the
`paymentTypeList` expansion is opened by its own key line and its
item/closing lines carry none), the sequence is the precedence-list
keys present in the input in listed order followed by the remaining
keys in input order (`orderedB`), and every input key occurs in it
exactly once. -/
theorem policyB_key_coverage (origin : Doc) (n : ℕ) (tl : JSNum) (lines : List String)
    (hnd : (keysOf origin).Nodup)
    (hq : ∀ k ∈ keysOf origin, ∀ c ∈ k.data, c ≠ '"')
    (hsub : hasKey origin "subscriptionNotification" = false)
    (hrender : originToPrettyLinesF origin (JSNum.val (n : ℚ)) tl = some lines) :
    renderedKeys n lines = orderedB origin
    ∧ (∀ k, (orderedB origin).count k = if k ∈ keysOf origin then 1 else 0) := by
  have hok : (arrItems (jgetD origin "paymentTypeList")).any isNull = false := by
    by_contra hcon
    have hany : (arrItems (jgetD origin "paymentTypeList")).any isNull = true := by
      simpa using hcon
    have hnone : originToPrettyLinesF origin (JSNum.val (n : ℚ)) tl = none := by
      unfold originToPrettyLinesF
      exact (coreF_eq_none_iff origin _ _ tl).2
        ⟨subTruthy_false_of_not_hasKey hsub, isArr_of_any_isNull hany, hany⟩
    rw [hnone] at hrender
    exact Option.noConfusion hrender
  have heq : originToPrettyLinesF origin (JSNum.val (n : ℚ)) tl
      = some (originToPrettyLines origin (JSNum.val (n : ℚ)) tl) := by
    unfold originToPrettyLinesF originToPrettyLines
    exact coreF_eq_total origin _ _ tl hok
  rw [heq] at hrender
  rw [(Option.some.inj hrender).symm]
  exact renderedKeys_total origin n tl hnd hq hsub

theorem policyB_key_coverage_witness :
    renderedKeys 5 ["\x7b",
        "     \"clientId\": \"c\",",
        "     \"zzz\": 1",
        "\x7d"]
      = orderedB [("zzz", JVal.num 1), ("clientId", JVal.str "c")]
    ∧ (∀ k, (orderedB [("zzz", JVal.num 1), ("clientId", JVal.str "c")]).count k =
        if k ∈ keysOf [("zzz", JVal.num 1), ("clientId", JVal.str "c")] then 1 else 0) :=
  policyB_key_coverage [("zzz", JVal.num 1), ("clientId", JVal.str "c")] 5 (JSNum.val 0)
    ["\x7b",
     "     \"clientId\": \"c\",",
     "     \"zzz\": 1",
     "\x7d"]
    (by decide) (by decide) (by decide)
    (by rw [originToPrettyLinesF_val_nat]; decide)

end PnsToTeams

